import Mathlib

/-!
# Sliding-window 2D reduction (cross-correlation / pooling)

Shallow embedding of the notebook functions `pool2d`, `corr2d`,
`corr2d_multi_in`, `corr2d_multi_in_out` and `corr2d_multi_in_out_1x1`.
Grids (2-D tensors) are lists of rows of rationals; the tensor runtime's
failure modes (constructing a tensor with a negative dimension,
reducing an empty tensor with `max`) are modelled with `Except`.
-/

set_option autoImplicit false

/-- The two runtime failure modes the embedded code can hit:
creating a tensor with a negative dimension (`torch.zeros`), and
taking the `max` of an empty tensor. The source defines no error
classes of its own. -/
inductive TorchError where
  | negDim : TorchError
  | emptyMax : TorchError
deriving DecidableEq

/-- A 2-D numeric grid: a list of rows. Real numbers are modelled by `ℚ`. -/
abbrev Grid := List (List ℚ)

/-- `X.shape[0]`. -/
def nrows (X : Grid) : Nat := X.length

/-- `X.shape[1]` (the length of row 0). -/
def ncols (X : Grid) : Nat := (X.headD []).length

/-- `X[i, j]`, with out-of-range reads defaulting to `0`. -/
def cell (X : Grid) (i j : Nat) : ℚ := (X.getD i []).getD j 0

/-- Well-formedness of a grid of shape `(H, W)`: `H` rows, each of width `W`. -/
def WF (X : Grid) (H W : Nat) : Prop := X.length = H ∧ ∀ r ∈ X, r.length = W

instance (X : Grid) (H W : Nat) : Decidable (WF X H W) := by
  unfold WF
  infer_instance

/-- The slice `X[i : i+h, j : j+w]`. -/
def slice2 (X : Grid) (i h j w : Nat) : Grid :=
  ((X.drop i).take h).map (fun r => (r.drop j).take w)

/-- Element-wise product `A * B` of two same-shaped grids. -/
def hadamard (A B : Grid) : Grid :=
  List.zipWith (fun ra rb => List.zipWith (fun x y => x * y) ra rb) A B

/-- `A.sum()`: the sum of all elements of a grid. -/
def gsum (A : Grid) : ℚ := (A.map List.sum).sum

/-- Row-major flattening of a grid into a list of its elements. -/
def gflat (A : Grid) : List ℚ := A.flatten

instance {ε α : Type} [DecidableEq ε] [DecidableEq α] :
    DecidableEq (Except ε α) := fun x y =>
  match x, y with
  | .ok a, .ok b =>
    if h : a = b then .isTrue (by rw [h])
    else .isFalse (by intro hc; cases hc; exact h rfl)
  | .error a, .error b =>
    if h : a = b then .isTrue (by rw [h])
    else .isFalse (by intro hc; cases hc; exact h rfl)
  | .ok _, .error _ => .isFalse (by intro hc; cases hc)
  | .error _, .ok _ => .isFalse (by intro hc; cases hc)

/-- An `m × n` grid of zeros (`torch.zeros((m, n))` when `m, n ≥ 0`). -/
def zeros (m n : Nat) : Grid :=
  (List.range m).map (fun _ => (List.range n).map (fun _ => (0 : ℚ)))

/-- `corr2d(X, K)`: 2-D cross-correlation.

    def corr2d(X, K):
        h, w = K.shape
        Y = torch.zeros((X.shape[0] - h + 1, X.shape[1] - w + 1))
        for i in range(Y.shape[0]):
            for j in range(Y.shape[1]):
                Y[i, j] = (X[i:i + h, j:j + w] * K).sum()
        return Y

`torch.zeros` fails when a requested dimension is negative; otherwise every
cell of the output is the sum of the window/kernel product. -/
def corr2d (X K : Grid) : Except TorchError Grid :=
  let h := nrows K
  let w := ncols K
  let Ho : Int := (nrows X : Int) - (h : Int) + 1
  let Wo : Int := (ncols X : Int) - (w : Int) + 1
  if Ho < 0 ∨ Wo < 0 then .error .negDim
  else .ok ((List.range Ho.toNat).map (fun i =>
    (List.range Wo.toNat).map (fun j =>
      gsum (hadamard (slice2 X i h j w) K))))

/-- One cell of `pool2d`: the body of the nested loop. `max` of an empty
slice is a runtime error; `mean` is the sum divided by the element count;
any mode other than `max` / `avg` leaves the zero-initialised cell at `0`. -/
def poolCell (X : Grid) (ph pw : Nat) (mode : String) (i j : Nat) :
    Except TorchError ℚ :=
  if mode = "max" then
    match (gflat (slice2 X i ph j pw)).max? with
    | some m => .ok m
    | none => .error .emptyMax
  else if mode = "avg" then
    .ok ((gflat (slice2 X i ph j pw)).sum /
          ((gflat (slice2 X i ph j pw)).length : ℚ))
  else .ok 0

/-- `pool2d(X, pool_size, mode)`:

    def pool2d(X, pool_size, mode='max'):
        p_h, p_w = pool_size
        Y = torch.zeros((X.shape[0] - p_h + 1, X.shape[1] - p_w + 1))
        for i in range(Y.shape[0]):
            for j in range(Y.shape[1]):
                if mode == 'max':
                    Y[i, j] = X[i: i + p_h, j: j + p_w].max()
                elif mode == 'avg':
                    Y[i, j] = X[i: i + p_h, j: j + p_w].mean()
        return Y

The row-major `mapM` reproduces the loop's first-error short-circuit. -/
def pool2d (X : Grid) (pool : Nat × Nat) (mode : String) :
    Except TorchError Grid :=
  let ph := pool.1
  let pw := pool.2
  let Ho : Int := (nrows X : Int) - (ph : Int) + 1
  let Wo : Int := (ncols X : Int) - (pw : Int) + 1
  if Ho < 0 ∨ Wo < 0 then .error .negDim
  else (List.range Ho.toNat).mapM (fun i =>
    (List.range Wo.toNat).mapM (fun j => poolCell X ph pw mode i j))

/-- The value `X[i : i+ph, j : j+pw].max()` takes on a nonempty window
(the `getD 0` default is never used then). -/
def maxCell (X : Grid) (ph pw i j : Nat) : ℚ :=
  ((gflat (slice2 X i ph j pw)).max?).getD 0

/-- Element-wise sum `A + B` of two same-shaped grids. -/
def addGrid (A B : Grid) : Grid :=
  List.zipWith (fun ra rb => List.zipWith (fun x y => x + y) ra rb) A B

/-- Python's `sum(...)` over a sequence of same-shaped grids (the start
value `0` broadcasts away against the first grid; an empty sequence,
which the notebooks never produce, is modelled as the empty grid). -/
def sumGrids : List Grid → Grid
  | [] => []
  | Y :: Ys => Ys.foldl addGrid Y

/-- `corr2d_multi_in(X, K)`:

    def corr2d_multi_in(X, K):
        return sum(corr2d(x, k) for x, k in zip(X, K))

The generator is evaluated in order; the first failing `corr2d` aborts. -/
def corr2d_multi_in (X K : List Grid) : Except TorchError Grid := do
  let Ys ← (X.zip K).mapM (fun xk => corr2d xk.1 xk.2)
  return sumGrids Ys

/-- `corr2d_multi_in_out(X, K)`:

    def corr2d_multi_in_out(X, K):
        return torch.stack([corr2d_multi_in(X, k) for k in K], 0)

`torch.stack` along axis 0 is the list of the per-output-channel grids. -/
def corr2d_multi_in_out (X : List Grid) (K : List (List Grid)) :
    Except TorchError (List Grid) :=
  K.mapM (fun k => corr2d_multi_in X k)

/-- Dot product of two equally long vectors (one step of `torch.matmul`). -/
def dot (a b : List ℚ) : ℚ := (List.zipWith (fun x y => x * y) a b).sum

/-- `torch.matmul` of an `m × n` grid with an `n × p` grid. -/
def matmul (A B : Grid) : Grid :=
  A.map (fun row => (List.range (B.headD []).length).map (fun t =>
    dot row (B.map (fun brow => brow.getD t 0))))

/-- `corr2d_multi_in_out_1x1(X, K)`:

    def corr2d_multi_in_out_1x1(X, K):
        c_i, h, w = X.shape
        c_o = K.shape[0]
        X = X.reshape((c_i, h * w))
        K = K.reshape((c_o, c_i))
        Y = torch.matmul(K, X)
        return Y.reshape((c_o, h, w))

Row-major reshapes: each channel of `X` flattens to a row of length `h*w`;
`K` of shape `(c_o, c_i, 1, 1)` flattens to its `c_o × c_i` entries; the
result rows are cut back into `h` rows of width `w`. -/
def corr2d_multi_in_out_1x1 (X : List Grid) (K : List (List Grid)) :
    List Grid :=
  let h := nrows (X.headD [])
  let w := ncols (X.headD [])
  let Xf : Grid := X.map gflat
  let Kf : Grid := K.map (fun ks => ks.map (fun kc => cell kc 0 0))
  let Y : Grid := matmul Kf Xf
  Y.map (fun yrow => (List.range h).map (fun r => (yrow.drop (r * w)).take w))

/-- Modelled from the spec: the output indices `i` of a window of extent
`k` sliding with stride `s` along an axis of size `n` — exactly those `i`
whose window `[i*s, i*s + k)` still fits (spec §4.1; the source implements
only stride 1). -/
def anchors (n k s : Nat) : List Nat :=
  (List.range n).filter (fun i => decide (i * s + k ≤ n))

/-- Modelled from the spec: the strided sliding-window reducer of §4.1.
The source notebooks implement it only at stride `(1,1)` (`pool2d`,
`corr2d`); here the window anchored at `(a, b)` ranges over all anchors
along each axis and is reduced by an arbitrary reduction `f`. -/
def reduceStrided (X : Grid) (kh kw sh sw : Nat) (f : Grid → ℚ) : Grid :=
  (anchors (nrows X) kh sh).map (fun a =>
    (anchors (ncols X) kw sw).map (fun b =>
      f (slice2 X (a * sh) kh (b * sw) kw)))

/-- `Y[i, j] = v`: in-place update of one cell of the output buffer
(`List.set` beyond the buffer is a no-op, never reached in the loops). -/
def setCell (Y : Grid) (i j : Nat) (v : ℚ) : Grid :=
  Y.set i ((Y.getD i []).set j v)

/-- The imperative reading of `corr2d`: the loop state carries the two
read-only input buffers `X`, `K` and the output buffer `Y` being written;
each iteration reads the current `X` and `K` components of the state and
writes one cell of `Y`. Returns the whole final state. -/
def corr2dLoop (X K : Grid) : Except TorchError (Grid × Grid × Grid) :=
  let h := nrows K
  let w := ncols K
  let Ho : Int := (nrows X : Int) - (h : Int) + 1
  let Wo : Int := (ncols X : Int) - (w : Int) + 1
  if Ho < 0 ∨ Wo < 0 then .error .negDim
  else .ok ((List.range Ho.toNat).foldl (fun st i =>
    (List.range Wo.toNat).foldl (fun st2 j =>
      (st2.1, st2.2.1,
        setCell st2.2.2 i j
          (gsum (hadamard (slice2 st2.1 i h j w) st2.2.1)))) st)
    (X, K, zeros Ho.toNat Wo.toNat))

/-- The imperative reading of `pool2d`: loop state `(X, Y)`; a cell is
written only in the `max` / `avg` branches, reading the current `X`
component; other modes leave the state untouched. -/
def pool2dLoop (X : Grid) (pool : Nat × Nat) (mode : String) :
    Except TorchError (Grid × Grid) :=
  let ph := pool.1
  let pw := pool.2
  let Ho : Int := (nrows X : Int) - (ph : Int) + 1
  let Wo : Int := (ncols X : Int) - (pw : Int) + 1
  if Ho < 0 ∨ Wo < 0 then .error .negDim
  else (List.range Ho.toNat).foldlM (fun st i =>
    (List.range Wo.toNat).foldlM (fun st2 j =>
      if mode = "max" ∨ mode = "avg" then do
        let v ← poolCell st2.1 ph pw mode i j
        pure (st2.1, setCell st2.2 i j v)
      else pure st2) st) (X, zeros Ho.toNat Wo.toNat)

theorem range_one : List.range 1 = [0] := by decide

theorem range_two : List.range 2 = [0, 1] := by decide

example : corr2d [[0,1,2],[3,4,5],[6,7,8]] [[0,1],[2,3]]
    = .ok [[19,25],[37,43]] := by
  simp [corr2d, nrows, ncols, range_two, slice2, hadamard, gsum]
  norm_num

example : pool2d [[0,1,2],[3,4,5],[6,7,8]] (2,2) "max"
    = .ok [[4,5],[7,8]] := by
  simp [pool2d, poolCell, nrows, ncols, range_two, slice2, gflat, List.max?,
    List.mapM.loop]
  norm_num
  rfl

example : pool2d [[0,1,2],[3,4,5],[6,7,8]] (2,2) "avg"
    = .ok [[2,3],[5,6]] := by
  simp [pool2d, poolCell, nrows, ncols, range_two, slice2, gflat, List.mapM.loop]
  norm_num
  rfl

example : corr2d [[5]] [[1],[2]] = .ok [] := by
  simp [corr2d, nrows, ncols]

example : pool2d [[5]] (2,0) "max" = .ok [] := by
  simp [pool2d, nrows, ncols, List.mapM.loop]
  rfl

example : pool2d [[5]] (0,1) "max" = .error .emptyMax := by
  simp [pool2d, poolCell, nrows, ncols, range_one, range_two, slice2, gflat,
    List.mapM.loop]
  rfl

example : corr2d [[5]] [[1],[2],[3]] = .error .negDim := by
  simp [corr2d, nrows, ncols]

/-! ## Generic list lemmas -/

theorem sum_eq_range_getD (l : List ℚ) :
    l.sum = ∑ q ∈ Finset.range l.length, l.getD q 0 := by
  induction l with
  | nil => simp
  | cons a as ih =>
      rw [List.sum_cons, List.length_cons, Finset.sum_range_succ']
      simp only [List.getD_cons_succ, List.getD_cons_zero, ih]
      exact add_comm _ _

theorem zipWith_sum_getD {α β : Type} (f : α → β → ℚ) (da : α) (db : β) :
    ∀ (a : List α) (b : List β), a.length = b.length →
      (List.zipWith f a b).sum
        = ∑ q ∈ Finset.range a.length, f (a.getD q da) (b.getD q db)
  | [], _, _ => by simp
  | x :: xs, [], h => by simp at h
  | x :: xs, y :: ys, h => by
      rw [List.zipWith_cons_cons, List.sum_cons, List.length_cons,
        Finset.sum_range_succ']
      simp only [List.getD_cons_succ, List.getD_cons_zero]
      rw [zipWith_sum_getD f da db xs ys (by simpa using h)]
      exact add_comm _ _

theorem getD_take_drop {α : Type} (d : α) (l : List α) (i h p : Nat)
    (hp : p < h) (hl : i + h ≤ l.length) :
    ((l.drop i).take h).getD p d = l.getD (i + p) d := by
  have hdl : i + p < l.length := by omega
  have h1 : p < ((l.drop i).take h).length := by
    simp only [List.length_take, List.length_drop]
    omega
  rw [List.getD_eq_getElem _ d h1, List.getD_eq_getElem _ d hdl,
    List.getElem_take, List.getElem_drop]

/-! ## Well-formedness helpers -/

theorem WF.row_length {X : Grid} {H W : Nat} (hX : WF X H W) {i : Nat}
    (hi : i < H) : (X.getD i []).length = W := by
  have hlen : i < X.length := by rw [hX.1]; exact hi
  rw [List.getD_eq_getElem _ _ hlen]
  exact hX.2 _ (X.getElem_mem hlen)

theorem WF.ncols_eq {X : Grid} {H W : Nat} (hX : WF X H W) (hH : 1 ≤ H) :
    ncols X = W := by
  match X, hX with
  | [], h => exact absurd h.1 (by simp only [List.length_nil]; omega)
  | r :: rs, h => exact h.2 r (List.mem_cons_self r rs)

/-! ## Slice lemmas -/

theorem slice2_length (X : Grid) (i kh j kw : Nat) (hik : i + kh ≤ X.length) :
    (slice2 X i kh j kw).length = kh := by
  simp only [slice2, List.length_map, List.length_take, List.length_drop]
  omega

theorem slice2_row (X : Grid) (i kh j kw p : Nat) (hp : p < kh)
    (hik : i + kh ≤ X.length) :
    (slice2 X i kh j kw).getD p [] = ((X.getD (i + p) []).drop j).take kw := by
  have hip : i + p < X.length := by omega
  have hlen : p < (((X.drop i).take kh).map
      (fun r => (r.drop j).take kw)).length := by
    simp only [List.length_map, List.length_take, List.length_drop]
    omega
  unfold slice2
  rw [List.getD_eq_getElem _ _ hlen, List.getElem_map, List.getElem_take,
    List.getElem_drop, List.getD_eq_getElem _ _ hip]

theorem slice2_row_length (X : Grid) (H W i kh j kw p : Nat) (hX : WF X H W)
    (hp : p < kh) (hik : i + kh ≤ H) (hjw : j + kw ≤ W) :
    ((slice2 X i kh j kw).getD p []).length = kw := by
  rw [slice2_row X i kh j kw p hp (by rw [hX.1]; exact hik)]
  have hrow : (X.getD (i + p) []).length = W := hX.row_length (by omega)
  simp only [List.length_take, List.length_drop, hrow]
  omega

/-! ## Window sums -/

theorem gsum_eq_rows (A : Grid) :
    gsum A = ∑ p ∈ Finset.range A.length, (A.getD p []).sum := by
  unfold gsum
  rw [sum_eq_range_getD, List.length_map]
  refine Finset.sum_congr rfl (fun p hp => ?_)
  have hp' : p < A.length := Finset.mem_range.mp hp
  rw [List.getD_eq_getElem _ _ (by simpa using hp'), List.getElem_map,
    List.getD_eq_getElem _ _ hp']

theorem gsum_slice (X : Grid) (H W i kh j kw : Nat) (hX : WF X H W)
    (hik : i + kh ≤ H) (hjw : j + kw ≤ W) :
    gsum (slice2 X i kh j kw)
      = ∑ p ∈ Finset.range kh, ∑ q ∈ Finset.range kw,
          cell X (i + p) (j + q) := by
  rw [gsum_eq_rows, slice2_length X i kh j kw (by rw [hX.1]; exact hik)]
  refine Finset.sum_congr rfl (fun p hp => ?_)
  have hp' : p < kh := Finset.mem_range.mp hp
  rw [slice2_row X i kh j kw p hp' (by rw [hX.1]; exact hik)]
  have hrow : (X.getD (i + p) []).length = W := hX.row_length (by omega)
  rw [sum_eq_range_getD]
  have hlen : (((X.getD (i + p) []).drop j).take kw).length = kw := by
    simp only [List.length_take, List.length_drop, hrow]
    omega
  rw [hlen]
  refine Finset.sum_congr rfl (fun q hq => ?_)
  have hq' : q < kw := Finset.mem_range.mp hq
  rw [getD_take_drop 0 _ j kw q hq' (by omega)]
  rfl

theorem gsum_hadamard_slice (X K : Grid) (H W kh kw i j : Nat)
    (hX : WF X H W) (hK : WF K kh kw) (hik : i + kh ≤ H) (hjw : j + kw ≤ W) :
    gsum (hadamard (slice2 X i kh j kw) K)
      = ∑ p ∈ Finset.range kh, ∑ q ∈ Finset.range kw,
          cell X (i + p) (j + q) * cell K p q := by
  have hsl : (slice2 X i kh j kw).length = kh :=
    slice2_length X i kh j kw (by rw [hX.1]; exact hik)
  unfold gsum hadamard
  rw [List.map_zipWith,
    zipWith_sum_getD _ ([] : List ℚ) ([] : List ℚ) _ _
      (by rw [hsl, hK.1]), hsl]
  refine Finset.sum_congr rfl (fun p hp => ?_)
  have hp' : p < kh := Finset.mem_range.mp hp
  rw [slice2_row X i kh j kw p hp' (by rw [hX.1]; exact hik)]
  have hrow : (X.getD (i + p) []).length = W := hX.row_length (by omega)
  have hlen : (((X.getD (i + p) []).drop j).take kw).length = kw := by
    simp only [List.length_take, List.length_drop, hrow]
    omega
  rw [zipWith_sum_getD _ (0 : ℚ) (0 : ℚ) _ _
    (by rw [hlen, hK.row_length hp']), hlen]
  refine Finset.sum_congr rfl (fun q hq => ?_)
  have hq' : q < kw := Finset.mem_range.mp hq
  rw [getD_take_drop 0 _ j kw q hq' (by omega)]
  rfl

/-! ## Characterisation of `corr2d` on valid shapes -/

theorem corr2d_ok (X K : Grid) (H W kh kw : Nat) (hX : WF X H W)
    (hK : WF K kh kw) (hkh1 : 1 ≤ kh) (hkh : kh ≤ H) (hkw1 : 1 ≤ kw)
    (hkw : kw ≤ W) :
    corr2d X K = .ok ((List.range (H - kh + 1)).map (fun i =>
      (List.range (W - kw + 1)).map (fun j =>
        gsum (hadamard (slice2 X i kh j kw) K)))) := by
  have hn : nrows K = kh := hK.1
  have hw : ncols K = kw := hK.ncols_eq hkh1
  have hnX : nrows X = H := hX.1
  have hwX : ncols X = W := hX.ncols_eq (by omega)
  have hcond : ¬((nrows X : Int) - (nrows K : Int) + 1 < 0 ∨
      (ncols X : Int) - (ncols K : Int) + 1 < 0) := by
    rw [hn, hw, hnX, hwX]
    push_neg
    omega
  have htoH : ((nrows X : Int) - (nrows K : Int) + 1).toNat = H - kh + 1 := by
    rw [hn, hnX]
    omega
  have htoW : ((ncols X : Int) - (ncols K : Int) + 1).toNat = W - kw + 1 := by
    rw [hw, hwX]
    omega
  simp only [corr2d]
  rw [if_neg hcond, htoH, htoW, hn, hw]

/-- Cell access into a grid built as a map over ranges. -/
theorem cell_map_range (m n : Nat) (g : Nat → Nat → ℚ) (i j : Nat)
    (hi : i < m) (hj : j < n) :
    cell ((List.range m).map (fun p => (List.range n).map (fun q => g p q)))
      i j = g i j := by
  unfold cell
  have h1 : i < ((List.range m).map
      (fun p => (List.range n).map (fun q => g p q))).length := by simpa using hi
  rw [List.getD_eq_getElem _ _ h1, List.getElem_map, List.getElem_range]
  have h2 : j < ((List.range n).map (fun q => g i q)).length := by
    simpa using hj
  rw [List.getD_eq_getElem _ _ h2, List.getElem_map, List.getElem_range]

theorem WF_map_range (m n : Nat) (g : Nat → Nat → ℚ) :
    WF ((List.range m).map (fun p => (List.range n).map (fun q => g p q)))
      m n := by
  constructor
  · simp
  · intro r hr
    rcases List.mem_map.mp hr with ⟨p, _, hpr⟩
    rw [← hpr]
    simp

/-! ## `mapM` on all-successful cells -/

theorem mapM_ok {α β : Type} (f : α → Except TorchError β) (g : α → β) :
    ∀ (l : List α), (∀ x ∈ l, f x = .ok (g x)) → l.mapM f = .ok (l.map g)
  | [], _ => rfl
  | x :: xs, h => by
      rw [List.mapM_cons, h x (List.mem_cons_self x xs),
        mapM_ok f g xs (fun y hy => h y (List.mem_cons_of_mem x hy))]
      rfl

/-! ## Flattened window contents -/

theorem slice2_mem_row (X : Grid) (H W i kh j kw : Nat) (hX : WF X H W)
    (hik : i + kh ≤ H) (hjw : j + kw ≤ W) :
    ∀ r ∈ slice2 X i kh j kw, r.length = kw := by
  intro r hr
  rcases List.mem_iff_getElem.mp hr with ⟨p, hp, hpr⟩
  have hp' : p < kh := by
    rwa [slice2_length X i kh j kw (by rw [hX.1]; exact hik)] at hp
  have hget : (slice2 X i kh j kw).getD p [] = r := by
    rw [List.getD_eq_getElem _ _ hp]
    exact hpr
  rw [← hget]
  exact slice2_row_length X H W i kh j kw p hX hp' hik hjw

theorem gflat_slice_length (X : Grid) (H W i kh j kw : Nat) (hX : WF X H W)
    (hik : i + kh ≤ H) (hjw : j + kw ≤ W) :
    (gflat (slice2 X i kh j kw)).length = kh * kw := by
  have hmap : (slice2 X i kh j kw).map List.length = List.replicate kh kw := by
    refine List.eq_replicate_iff.mpr ⟨?_, ?_⟩
    · rw [List.length_map]
      exact slice2_length X i kh j kw (by rw [hX.1]; exact hik)
    · intro b hb
      rcases List.mem_map.mp hb with ⟨r, hr, hrb⟩
      rw [← hrb]
      exact slice2_mem_row X H W i kh j kw hX hik hjw r hr
  unfold gflat
  rw [List.length_flatten, hmap, List.sum_replicate, smul_eq_mul]

theorem gflat_slice_sum (X : Grid) (H W i kh j kw : Nat) (hX : WF X H W)
    (hik : i + kh ≤ H) (hjw : j + kw ≤ W) :
    (gflat (slice2 X i kh j kw)).sum
      = ∑ p ∈ Finset.range kh, ∑ q ∈ Finset.range kw,
          cell X (i + p) (j + q) := by
  unfold gflat
  rw [List.sum_flatten]
  simpa [gsum] using gsum_slice X H W i kh j kw hX hik hjw

theorem mem_gflat_slice (X : Grid) (H W i kh j kw : Nat) (hX : WF X H W)
    (hik : i + kh ≤ H) (hjw : j + kw ≤ W) (x : ℚ) :
    x ∈ gflat (slice2 X i kh j kw)
      ↔ ∃ p, p < kh ∧ ∃ q, q < kw ∧ x = cell X (i + p) (j + q) := by
  have hsl : (slice2 X i kh j kw).length = kh :=
    slice2_length X i kh j kw (by rw [hX.1]; exact hik)
  unfold gflat
  rw [List.mem_flatten]
  constructor
  · rintro ⟨r, hr, hxr⟩
    rcases List.mem_iff_getElem.mp hr with ⟨p, hp, hpr⟩
    have hp' : p < kh := by rwa [hsl] at hp
    have hrget : (slice2 X i kh j kw).getD p [] = r := by
      rw [List.getD_eq_getElem _ _ hp]
      exact hpr
    have hrl : r.length = kw := by
      rw [← hrget]
      exact slice2_row_length X H W i kh j kw p hX hp' hik hjw
    rcases List.mem_iff_getElem.mp hxr with ⟨q, hq, hqx⟩
    have hq' : q < kw := by rwa [hrl] at hq
    refine ⟨p, hp', q, hq', ?_⟩
    rw [← hqx]
    have : r.getD q 0 = r[q] := List.getD_eq_getElem r 0 hq
    rw [← this, ← hrget,
      slice2_row X i kh j kw p hp' (by rw [hX.1]; exact hik),
      getD_take_drop 0 _ j kw q hq'
        (by rw [hX.row_length (by omega : i + p < H)]; omega)]
    rfl
  · rintro ⟨p, hp, q, hq, hx⟩
    have hrow : (slice2 X i kh j kw).getD p [] ∈ slice2 X i kh j kw := by
      have hp2 : p < (slice2 X i kh j kw).length := by rw [hsl]; exact hp
      rw [List.getD_eq_getElem _ _ hp2]
      exact List.getElem_mem hp2
    refine ⟨(slice2 X i kh j kw).getD p [], hrow, ?_⟩
    have hrl : ((slice2 X i kh j kw).getD p []).length = kw :=
      slice2_row_length X H W i kh j kw p hX hp hik hjw
    have hval : ((slice2 X i kh j kw).getD p []).getD q 0
        = cell X (i + p) (j + q) := by
      rw [slice2_row X i kh j kw p hp (by rw [hX.1]; exact hik),
        getD_take_drop 0 _ j kw q hq
          (by rw [hX.row_length (by omega : i + p < H)]; omega)]
      rfl
    have hq2 : q < ((slice2 X i kh j kw).getD p []).length := by
      rw [hrl]; exact hq
    rw [hx, ← hval, List.getD_eq_getElem _ _ hq2]
    exact List.getElem_mem hq2

/-! ## `pool2d` on valid shapes -/

theorem pool2d_ok_of_cells (X : Grid) (ph pw : Nat) (mode : String)
    (H W : Nat) (hX : WF X H W) (hH : 1 ≤ H) (hph : ph ≤ H) (hpw : pw ≤ W)
    (g : Nat → Nat → ℚ)
    (hcell : ∀ i j, i < H - ph + 1 → j < W - pw + 1 →
      poolCell X ph pw mode i j = .ok (g i j)) :
    pool2d X (ph, pw) mode = .ok ((List.range (H - ph + 1)).map (fun i =>
      (List.range (W - pw + 1)).map (fun j => g i j))) := by
  have hnX : nrows X = H := hX.1
  have hwX : ncols X = W := hX.ncols_eq hH
  have hcond : ¬((nrows X : Int) - (ph : Int) + 1 < 0 ∨
      (ncols X : Int) - (pw : Int) + 1 < 0) := by
    rw [hnX, hwX]
    push_neg
    omega
  have htoH : ((nrows X : Int) - (ph : Int) + 1).toNat = H - ph + 1 := by
    rw [hnX]; omega
  have htoW : ((ncols X : Int) - (pw : Int) + 1).toNat = W - pw + 1 := by
    rw [hwX]; omega
  simp only [pool2d]
  rw [if_neg hcond, htoH, htoW]
  apply mapM_ok
  intro i hi
  have hi2 : i < H - ph + 1 := by simpa [List.mem_range] using hi
  apply mapM_ok
  intro j hj
  exact hcell i j hi2 (by simpa [List.mem_range] using hj)

theorem max?_isSome_of_ne_nil {l : List ℚ} (h : l ≠ []) :
    ∃ m, l.max? = some m := by
  cases l with
  | nil => exact absurd rfl h
  | cons a as => exact ⟨as.foldl max a, rfl⟩

theorem poolCell_max_ok (X : Grid) (H W kh kw i j : Nat) (hX : WF X H W)
    (hkh1 : 1 ≤ kh) (hkw1 : 1 ≤ kw) (hik : i + kh ≤ H) (hjw : j + kw ≤ W) :
    poolCell X kh kw "max" i j = .ok (maxCell X kh kw i j) ∧
      maxCell X kh kw i j ∈ gflat (slice2 X i kh j kw) ∧
      ∀ x ∈ gflat (slice2 X i kh j kw), x ≤ maxCell X kh kw i j := by
  have hlen : (gflat (slice2 X i kh j kw)).length = kh * kw :=
    gflat_slice_length X H W i kh j kw hX hik hjw
  have hne : gflat (slice2 X i kh j kw) ≠ [] := by
    intro hc
    rw [hc, List.length_nil] at hlen
    have : 0 < kh * kw := Nat.mul_pos hkh1 hkw1
    omega
  obtain ⟨m, hm⟩ := max?_isSome_of_ne_nil hne
  have hval : maxCell X kh kw i j = m := by
    unfold maxCell
    rw [hm]
    rfl
  refine ⟨?_, ?_, ?_⟩
  · unfold poolCell
    rw [if_pos rfl, hm, hval]
  · rw [hval]
    exact List.max?_mem (fun a b => max_choice a b) hm
  · intro x hx
    rw [hval]
    exact (List.max?_le_iff (fun a b c => max_le_iff) hm).mp le_rfl x hx

/-! ## Claim theorems -/

/-- C1: for every grid of shape `(H, W)` and weights of shape `(kh, kw)` with
`1 ≤ kh ≤ H` and `1 ≤ kw ≤ W`, `corr2d` (the `WEIGHTED_SUM` reduction at
stride `(1,1)`) returns a grid of shape `(H-kh+1, W-kw+1)` whose cell `(i,j)`
is `Σ_{p<kh} Σ_{q<kw} grid[i+p, j+q] * weights[p,q]`; in particular on
`[[0,1,2],[3,4,5],[6,7,8]]` with weights `[[0,1],[2,3]]` the output is
`[[19,25],[37,43]]`. -/
theorem corr2d_weighted_sum_spec :
    (∀ (H W kh kw : Nat) (X K : Grid), WF X H W → WF K kh kw →
      1 ≤ kh → kh ≤ H → 1 ≤ kw → kw ≤ W →
      ∃ Y, corr2d X K = .ok Y ∧ WF Y (H - kh + 1) (W - kw + 1) ∧
        ∀ i j, i < H - kh + 1 → j < W - kw + 1 →
          cell Y i j = ∑ p ∈ Finset.range kh, ∑ q ∈ Finset.range kw,
            cell X (i + p) (j + q) * cell K p q) ∧
    corr2d [[0,1,2],[3,4,5],[6,7,8]] [[0,1],[2,3]] = .ok [[19,25],[37,43]] := by
  constructor
  · intro H W kh kw X K hX hK hkh1 hkh hkw1 hkw
    refine ⟨_, corr2d_ok X K H W kh kw hX hK hkh1 hkh hkw1 hkw,
      WF_map_range _ _ _, ?_⟩
    intro i j hi hj
    rw [cell_map_range _ _ _ i j hi hj]
    exact gsum_hadamard_slice X K H W kh kw i j hX hK (by omega) (by omega)
  · simp [corr2d, nrows, ncols, range_two, slice2, hadamard, gsum]
    norm_num

/-- Witness for C1 at the concrete `3×3` grid and `2×2` weights. -/
theorem corr2d_weighted_sum_spec_witness :
    ∃ Y, corr2d [[0,1,2],[3,4,5],[6,7,8]] [[0,1],[2,3]] = .ok Y ∧
      WF Y (3 - 2 + 1) (3 - 2 + 1) ∧
      ∀ i j, i < 3 - 2 + 1 → j < 3 - 2 + 1 →
        cell Y i j = ∑ p ∈ Finset.range 2, ∑ q ∈ Finset.range 2,
          cell [[0,1,2],[3,4,5],[6,7,8]] (i + p) (j + q)
            * cell [[0,1],[2,3]] p q :=
  corr2d_weighted_sum_spec.1 3 3 2 2 [[0,1,2],[3,4,5],[6,7,8]] [[0,1],[2,3]]
    (by constructor
        · rfl
        · intro r hr
          simp only [List.mem_cons, List.not_mem_nil, or_false] at hr
          rcases hr with h | h | h <;> rw [h] <;> rfl)
    (by constructor
        · rfl
        · intro r hr
          simp only [List.mem_cons, List.not_mem_nil, or_false] at hr
          rcases hr with h | h <;> rw [h] <;> rfl)
    (by decide) (by decide) (by decide) (by decide)

/-- C2: for every grid of shape `(H, W)` and window `(kh, kw)` with
`1 ≤ kh ≤ H`, `1 ≤ kw ≤ W`, `pool2d` with mode `max` (the `MAX` reduction at
stride `(1,1)`) returns a grid whose cell `(i,j)` is the maximum of the
`kh × kw` window elements `grid[i+p, j+q]`; in particular on
`[[0,1,2],[3,4,5],[6,7,8]]` with window `(2,2)` the output is
`[[4,5],[7,8]]`. -/
theorem pool2d_max_spec :
    (∀ (H W kh kw : Nat) (X : Grid), WF X H W → 1 ≤ kh → kh ≤ H →
      1 ≤ kw → kw ≤ W →
      ∃ Y, pool2d X (kh, kw) "max" = .ok Y ∧
        WF Y (H - kh + 1) (W - kw + 1) ∧
        ∀ i j, i < H - kh + 1 → j < W - kw + 1 →
          (∃ p, p < kh ∧ ∃ q, q < kw ∧
            cell Y i j = cell X (i + p) (j + q)) ∧
          ∀ p, p < kh → ∀ q, q < kw →
            cell X (i + p) (j + q) ≤ cell Y i j) ∧
    pool2d [[0,1,2],[3,4,5],[6,7,8]] (2,2) "max" = .ok [[4,5],[7,8]] := by
  constructor
  · intro H W kh kw X hX hkh1 hkh hkw1 hkw
    refine ⟨_, pool2d_ok_of_cells X kh kw "max" H W hX (by omega) hkh hkw
      (fun i j => maxCell X kh kw i j) (fun i j hi hj =>
        (poolCell_max_ok X H W kh kw i j hX hkh1 hkw1
          (by omega) (by omega)).1),
      WF_map_range _ _ _, ?_⟩
    intro i j hi hj
    rw [cell_map_range _ _ _ i j hi hj]
    have hik : i + kh ≤ H := by omega
    have hjw : j + kw ≤ W := by omega
    obtain ⟨-, hmem, hub⟩ :=
      poolCell_max_ok X H W kh kw i j hX hkh1 hkw1 hik hjw
    constructor
    · exact (mem_gflat_slice X H W i kh j kw hX hik hjw _).mp hmem
    · intro p hp q hq
      exact hub _ ((mem_gflat_slice X H W i kh j kw hX hik hjw _).mpr
        ⟨p, hp, q, hq, rfl⟩)
  · simp [pool2d, poolCell, nrows, ncols, range_two, slice2, gflat, List.max?,
      List.mapM.loop]
    norm_num
    rfl

/-- Witness for C2 at the concrete `3×3` grid and `2×2` window. -/
theorem pool2d_max_spec_witness :
    ∃ Y, pool2d [[0,1,2],[3,4,5],[6,7,8]] (2,2) "max" = .ok Y ∧
      WF Y (3 - 2 + 1) (3 - 2 + 1) ∧
      ∀ i j, i < 3 - 2 + 1 → j < 3 - 2 + 1 →
        (∃ p, p < 2 ∧ ∃ q, q < 2 ∧
          cell Y i j = cell [[0,1,2],[3,4,5],[6,7,8]] (i + p) (j + q)) ∧
        ∀ p, p < 2 → ∀ q, q < 2 →
          cell [[0,1,2],[3,4,5],[6,7,8]] (i + p) (j + q) ≤ cell Y i j :=
  pool2d_max_spec.1 3 3 2 2 [[0,1,2],[3,4,5],[6,7,8]]
    (by constructor
        · rfl
        · intro r hr
          simp only [List.mem_cons, List.not_mem_nil, or_false] at hr
          rcases hr with h | h | h <;> rw [h] <;> rfl)
    (by decide) (by decide) (by decide) (by decide)

theorem poolCell_avg_ok (X : Grid) (H W kh kw i j : Nat) (hX : WF X H W)
    (hik : i + kh ≤ H) (hjw : j + kw ≤ W) :
    poolCell X kh kw "avg" i j
      = .ok ((∑ p ∈ Finset.range kh, ∑ q ∈ Finset.range kw,
          cell X (i + p) (j + q)) / ((kh * kw : Nat) : ℚ)) := by
  unfold poolCell
  rw [if_neg (by decide), if_pos rfl,
    gflat_slice_sum X H W i kh j kw hX hik hjw,
    gflat_slice_length X H W i kh j kw hX hik hjw]

/-- C3: for every grid of shape `(H, W)` and window `(kh, kw)` with
`1 ≤ kh ≤ H`, `1 ≤ kw ≤ W`, `pool2d` with mode `avg` (the `MEAN` reduction at
stride `(1,1)`) returns a grid whose cell `(i,j)` is the arithmetic mean of
the `kh × kw` window elements: their sum divided by `kh * kw`, with exact
(unrounded) division in the rational model. -/
theorem pool2d_avg_spec :
    ∀ (H W kh kw : Nat) (X : Grid), WF X H W → 1 ≤ kh → kh ≤ H →
      1 ≤ kw → kw ≤ W →
      ∃ Y, pool2d X (kh, kw) "avg" = .ok Y ∧
        WF Y (H - kh + 1) (W - kw + 1) ∧
        ∀ i j, i < H - kh + 1 → j < W - kw + 1 →
          cell Y i j = (∑ p ∈ Finset.range kh, ∑ q ∈ Finset.range kw,
            cell X (i + p) (j + q)) / ((kh : ℚ) * (kw : ℚ)) := by
  intro H W kh kw X hX hkh1 hkh hkw1 hkw
  refine ⟨_, pool2d_ok_of_cells X kh kw "avg" H W hX (by omega) hkh hkw
    (fun i j => (∑ p ∈ Finset.range kh, ∑ q ∈ Finset.range kw,
      cell X (i + p) (j + q)) / ((kh * kw : Nat) : ℚ))
    (fun i j hi hj =>
      poolCell_avg_ok X H W kh kw i j hX (by omega) (by omega)),
    WF_map_range _ _ _, ?_⟩
  intro i j hi hj
  rw [cell_map_range _ _ _ i j hi hj]
  norm_cast

/-- Witness for C3 at the concrete `3×3` grid and `2×2` window. -/
theorem pool2d_avg_spec_witness :
    ∃ Y, pool2d [[0,1,2],[3,4,5],[6,7,8]] (2,2) "avg" = .ok Y ∧
      WF Y (3 - 2 + 1) (3 - 2 + 1) ∧
      ∀ i j, i < 3 - 2 + 1 → j < 3 - 2 + 1 →
        cell Y i j = (∑ p ∈ Finset.range 2, ∑ q ∈ Finset.range 2,
          cell [[0,1,2],[3,4,5],[6,7,8]] (i + p) (j + q)) / ((2 : ℚ) * 2) :=
  pool2d_avg_spec 3 3 2 2 [[0,1,2],[3,4,5],[6,7,8]]
    (by constructor
        · rfl
        · intro r hr
          simp only [List.mem_cons, List.not_mem_nil, or_false] at hr
          rcases hr with h | h | h <;> rw [h] <;> rfl)
    (by decide) (by decide) (by decide) (by decide)

/-- C10: for every grid of shape `(H, W)`, window `(kh, kw)` with `kh ≤ H`
and `kw ≤ W`, and mode string other than `max` and `avg`, `pool2d` raises no
error and returns the freshly allocated all-zeros grid of shape
`(H-kh+1, W-kw+1)`: no cell is ever assigned. -/
theorem pool2d_other_mode_spec :
    ∀ (H W kh kw : Nat) (X : Grid) (mode : String), WF X H W → 1 ≤ H →
      kh ≤ H → kw ≤ W → mode ≠ "max" → mode ≠ "avg" →
      pool2d X (kh, kw) mode = .ok (zeros (H - kh + 1) (W - kw + 1)) := by
  intro H W kh kw X mode hX hH hkh hkw hnmax hnavg
  have := pool2d_ok_of_cells X kh kw mode H W hX hH hkh hkw
    (fun _ _ => (0 : ℚ)) (fun i j _ _ => by
      unfold poolCell
      rw [if_neg hnmax, if_neg hnavg])
  exact this

/-- Witness for C10: mode `"foo"` on a concrete `2×2` grid. -/
theorem pool2d_other_mode_spec_witness :
    pool2d [[1,2],[3,4]] (1,2) "foo" = .ok (zeros 2 1) :=
  pool2d_other_mode_spec 2 2 1 2 [[1,2],[3,4]] "foo"
    (by constructor
        · rfl
        · intro r hr
          simp only [List.mem_cons, List.not_mem_nil, or_false] at hr
          rcases hr with h | h <;> rw [h] <;> rfl)
    (by decide) (by decide) (by decide) (by decide) (by decide)

/-! ## Output-shape law -/

theorem anchors_length (n k s : Nat) (hs : 1 ≤ s) (hk : 1 ≤ k) (hkn : k ≤ n) :
    (anchors n k s).length = (n - k) / s + 1 := by
  have hdn : (n - k) / s < n := by
    have h1 : (n - k) / s ≤ n - k := Nat.div_le_self _ _
    omega
  have hiff : ∀ i : Nat, (i * s + k ≤ n) ↔ i ≤ (n - k) / s := by
    intro i
    rw [Nat.le_div_iff_mul_le (by omega : 0 < s)]
    omega
  obtain ⟨e, he⟩ : ∃ e, n = ((n - k) / s + 1) + e := ⟨n - ((n - k) / s + 1), by omega⟩
  unfold anchors
  rw [show List.range n = List.range ((n - k) / s + 1)
      ++ (List.range e).map (fun x => (n - k) / s + 1 + x) by
    conv_lhs => rw [he, List.range_add]]
  rw [List.filter_append]
  have h1 : (List.range ((n - k) / s + 1)).filter
      (fun i => decide (i * s + k ≤ n)) = List.range ((n - k) / s + 1) := by
    apply List.filter_eq_self.mpr
    intro a ha
    have haa : a < (n - k) / s + 1 := List.mem_range.mp ha
    exact decide_eq_true ((hiff a).mpr (by omega))
  have h2 : ((List.range e).map (fun x => ((n - k) / s + 1) + x)).filter
      (fun i => decide (i * s + k ≤ n)) = [] := by
    apply List.filter_eq_nil_iff.mpr
    intro a ha hc
    rcases List.mem_map.mp ha with ⟨x, hx, hax⟩
    have := (hiff a).mp (of_decide_eq_true hc)
    omega
  rw [h1, h2, List.length_append, List.length_range, List.length_nil]

/-- C4 counterexample: the claimed example is wrong. With `H = W = 8`,
`kh = 3`, `kw = 5`, stride `(3,4)`, the output-shape law itself gives
`Wo = (8-5)/4 + 1 = 1`, not `2`: the strided reducer produces 2 rows of
length 1, so the claim's "gives Ho=2, Wo=2" is false at this input. -/
theorem reduce_output_shape_cx :
    (reduceStrided (zeros 8 8) 3 5 3 4 gsum).length = 2 ∧
    (∀ r ∈ reduceStrided (zeros 8 8) 3 5 3 4 gsum, r.length = 1) ∧
    (8 - 5) / 4 + 1 = 1 ∧ (1 : Nat) ≠ 2 := by decide

/-- C4 (amended): for all valid grid/window/stride combinations
(`1 ≤ kh ≤ H`, `1 ≤ kw ≤ W`, `sh, sw ≥ 1`), the strided reducer modelled
from the spec has output dimensions `Ho = (H-kh)/sh + 1` and
`Wo = (W-kw)/sw + 1`; the code's stride-`(1,1)` reducers `corr2d` and
`pool2d` obey the same law; and in the example `H = W = 8`, `kh = 3`,
`kw = 5`, stride `(3,4)`, the output shape is `Ho = 2`, `Wo = 1` (not
`Wo = 2` as the spec's example miscalculates). -/
theorem reduce_output_shape :
    (∀ (H W kh kw sh sw : Nat) (X : Grid) (f : Grid → ℚ), WF X H W →
      1 ≤ kh → kh ≤ H → 1 ≤ kw → kw ≤ W → 1 ≤ sh → 1 ≤ sw →
      (reduceStrided X kh kw sh sw f).length = (H - kh) / sh + 1 ∧
      ∀ r ∈ reduceStrided X kh kw sh sw f, r.length = (W - kw) / sw + 1) ∧
    (∀ (H W kh kw : Nat) (X K : Grid), WF X H W → WF K kh kw →
      1 ≤ kh → kh ≤ H → 1 ≤ kw → kw ≤ W →
      (∃ Y, corr2d X K = .ok Y ∧
        WF Y ((H - kh) / 1 + 1) ((W - kw) / 1 + 1)) ∧
      (∃ Y, pool2d X (kh, kw) "max" = .ok Y ∧
        WF Y ((H - kh) / 1 + 1) ((W - kw) / 1 + 1))) ∧
    ((reduceStrided (zeros 8 8) 3 5 3 4 gsum).length = 2 ∧
      ∀ r ∈ reduceStrided (zeros 8 8) 3 5 3 4 gsum, r.length = 1) := by
  refine ⟨?_, ?_, by decide⟩
  · intro H W kh kw sh sw X f hX hkh1 hkh hkw1 hkw hsh hsw
    have hrows : nrows X = H := hX.1
    have hcols : ncols X = W := hX.ncols_eq (by omega)
    constructor
    · unfold reduceStrided
      rw [List.length_map, hrows]
      exact anchors_length H kh sh hsh hkh1 hkh
    · intro r hr
      unfold reduceStrided at hr
      rcases List.mem_map.mp hr with ⟨a, _, har⟩
      rw [← har, List.length_map, hcols]
      exact anchors_length W kw sw hsw hkw1 hkw
  · intro H W kh kw X K hX hK hkh1 hkh hkw1 hkw
    constructor
    · refine ⟨_, corr2d_ok X K H W kh kw hX hK hkh1 hkh hkw1 hkw, ?_⟩
      rw [Nat.div_one, Nat.div_one]
      exact WF_map_range _ _ _
    · refine ⟨_, pool2d_ok_of_cells X kh kw "max" H W hX (by omega) hkh hkw
        (fun i j => maxCell X kh kw i j) (fun i j hi hj =>
          (poolCell_max_ok X H W kh kw i j hX hkh1 hkw1
            (by omega) (by omega)).1), ?_⟩
      rw [Nat.div_one, Nat.div_one]
      exact WF_map_range _ _ _

/-- Witness for C4 at `H = W = 8`, `kh = 3`, `kw = 5`, stride `(3,4)` on
the zero grid. -/
theorem reduce_output_shape_witness :
    (reduceStrided (zeros 8 8) 3 5 3 4 gsum).length = (8 - 3) / 3 + 1 ∧
    ∀ r ∈ reduceStrided (zeros 8 8) 3 5 3 4 gsum,
      r.length = (8 - 5) / 4 + 1 :=
  reduce_output_shape.1 8 8 3 5 3 4 (zeros 8 8) gsum
    (by constructor
        · rfl
        · intro r hr
          rcases List.mem_map.mp hr with ⟨x, _, hxr⟩
          rw [← hxr]
          rfl)
    (by decide) (by decide) (by decide) (by decide) (by decide) (by decide)

/-! ## Oversized and empty windows -/

theorem corr2d_ok_toNat (X K : Grid) (H W kh kw : Nat) (hX : WF X H W)
    (hK : WF K kh kw) (hH : 1 ≤ H) (hkh1 : 1 ≤ kh)
    (hkh : kh ≤ H + 1) (hkw : kw ≤ W + 1) :
    corr2d X K = .ok ((List.range (H + 1 - kh)).map (fun i =>
      (List.range (W + 1 - kw)).map (fun j =>
        gsum (hadamard (slice2 X i kh j kw) K)))) := by
  have hn : nrows K = kh := hK.1
  have hw : ncols K = kw := hK.ncols_eq hkh1
  have hnX : nrows X = H := hX.1
  have hwX : ncols X = W := hX.ncols_eq hH
  have hcond : ¬((nrows X : Int) - (nrows K : Int) + 1 < 0 ∨
      (ncols X : Int) - (ncols K : Int) + 1 < 0) := by
    rw [hn, hw, hnX, hwX]
    push_neg
    omega
  have htoH : ((nrows X : Int) - (nrows K : Int) + 1).toNat = H + 1 - kh := by
    rw [hn, hnX]
    omega
  have htoW : ((ncols X : Int) - (ncols K : Int) + 1).toNat = W + 1 - kw := by
    rw [hw, hwX]
    omega
  simp only [corr2d]
  rw [if_neg hcond, htoH, htoW, hn, hw]

theorem gflat_map_range_empty (m n : Nat) (g : Nat → Nat → ℚ)
    (h : m = 0 ∨ n = 0) :
    gflat ((List.range m).map (fun i =>
      (List.range n).map (fun j => g i j))) = [] := by
  rcases h with h | h
  · subst h
    rfl
  · subst h
    simp [gflat, List.flatten_eq_nil_iff]

theorem corr2d_empty_output (X K : Grid) (H W kh kw : Nat) (hX : WF X H W)
    (hK : WF K kh kw) (hH : 1 ≤ H) (hkh1 : 1 ≤ kh)
    (hkh : kh ≤ H + 1) (hkw : kw ≤ W + 1) (hor : kh = H + 1 ∨ kw = W + 1) :
    ∃ Y, corr2d X K = .ok Y ∧ gflat Y = [] := by
  refine ⟨_, corr2d_ok_toNat X K H W kh kw hX hK hH hkh1 hkh hkw, ?_⟩
  apply gflat_map_range_empty
  rcases hor with h | h
  · left
    omega
  · right
    omega

theorem pool2d_empty_output (X : Grid) (ph pw : Nat) (mode : String)
    (H W : Nat) (hX : WF X H W) (hH : 1 ≤ H)
    (hph : ph ≤ H + 1) (hpw : pw ≤ W + 1) (hor : ph = H + 1 ∨ pw = W + 1) :
    ∃ Y, pool2d X (ph, pw) mode = .ok Y ∧ gflat Y = [] := by
  have hnX : nrows X = H := hX.1
  have hwX : ncols X = W := hX.ncols_eq hH
  have hcond : ¬((nrows X : Int) - (ph : Int) + 1 < 0 ∨
      (ncols X : Int) - (pw : Int) + 1 < 0) := by
    rw [hnX, hwX]
    push_neg
    omega
  have htoH : ((nrows X : Int) - (ph : Int) + 1).toNat = H + 1 - ph := by
    rw [hnX]
    omega
  have htoW : ((ncols X : Int) - (pw : Int) + 1).toNat = W + 1 - pw := by
    rw [hwX]
    omega
  simp only [pool2d]
  rw [if_neg hcond, htoH, htoW]
  rcases hor with h | h
  · rw [h, Nat.sub_self]
    exact ⟨[], rfl, rfl⟩
  · rw [h, Nat.sub_self]
    refine ⟨(List.range (H + 1 - ph)).map (fun _ => ([] : List ℚ)), ?_, ?_⟩
    · exact mapM_ok _ _ _ (fun i _ => rfl)
    · simp [gflat, List.flatten_eq_nil_iff]

theorem gflat_slice_zero_window (X : Grid) (i kh j kw : Nat)
    (h : kh * kw = 0) : gflat (slice2 X i kh j kw) = [] := by
  rcases Nat.mul_eq_zero.mp h with h0 | h0
  · subst h0
    simp [slice2, gflat]
  · subst h0
    simp [slice2, gflat, List.flatten_eq_nil_iff]

/-- C5 counterexample: with the window larger than the grid by exactly one
row (`H = W = 1`, `kh = 2`, `kw = 1`), neither `corr2d` nor `pool2d` fails:
both return an empty output grid, so no `InvalidWindowError` (or any
failure) occurs. -/
theorem invalid_window_cx :
    corr2d [[5]] [[1],[2]] = .ok [] ∧
    pool2d [[5]] (2, 1) "max" = .ok [] ∧
    (∀ e : TorchError, corr2d [[5]] [[1],[2]] ≠ .error e) := by
  refine ⟨?_, ?_, ?_⟩
  · simp [corr2d, nrows, ncols]
  · simp [pool2d, nrows, ncols]
    rfl
  · intro e hc
    rw [show corr2d [[5]] [[1],[2]] = .ok [] by
      simp [corr2d, nrows, ncols]] at hc
    cases hc

/-- C5 (amended): the code validates nothing, so a window exceeding the
grid does not raise a dedicated error. For `kh, kw ≥ 1`: if the window
exceeds the grid by at least 2 on some axis, construction of the output
fails (negative dimension — the only failure, there is no
`InvalidWindowError`); if it exceeds by exactly one on an axis (and by at
most one on the other), the call succeeds with an empty output grid; and
for `kh = H`, `kw = W` it succeeds with a `1 × 1` output. -/
theorem invalid_window_spec :
    ∀ (H W kh kw : Nat) (X K : Grid) (mode : String), WF X H W →
      WF K kh kw → 1 ≤ H → 1 ≤ W → 1 ≤ kh → 1 ≤ kw →
      ((kh ≥ H + 2 ∨ kw ≥ W + 2) →
        corr2d X K = .error .negDim ∧
        pool2d X (kh, kw) mode = .error .negDim) ∧
      (((kh = H + 1 ∧ kw ≤ W + 1) ∨ (kw = W + 1 ∧ kh ≤ H + 1)) →
        (∃ Y, corr2d X K = .ok Y ∧ gflat Y = []) ∧
        (∃ Y, pool2d X (kh, kw) mode = .ok Y ∧ gflat Y = [])) ∧
      (kh = H → kw = W →
        (∃ v, corr2d X K = .ok [[v]]) ∧
        (∃ v, pool2d X (kh, kw) "max" = .ok [[v]])) := by
  intro H W kh kw X K mode hX hK hH hW hkh1 hkw1
  have hn : nrows K = kh := hK.1
  have hw : ncols K = kw := hK.ncols_eq hkh1
  have hnX : nrows X = H := hX.1
  have hwX : ncols X = W := hX.ncols_eq hH
  refine ⟨?_, ?_, ?_⟩
  · intro hbig
    constructor
    · have hcond : (nrows X : Int) - (nrows K : Int) + 1 < 0 ∨
          (ncols X : Int) - (ncols K : Int) + 1 < 0 := by
        rw [hn, hw, hnX, hwX]
        rcases hbig with h | h
        · left; omega
        · right; omega
      simp only [corr2d]
      rw [if_pos hcond]
    · have hcond : (nrows X : Int) - (kh : Int) + 1 < 0 ∨
          (ncols X : Int) - (kw : Int) + 1 < 0 := by
        rw [hnX, hwX]
        rcases hbig with h | h
        · left; omega
        · right; omega
      simp only [pool2d]
      rw [if_pos hcond]
  · intro hone
    have hkh2 : kh ≤ H + 1 := by rcases hone with ⟨h, _⟩ | ⟨_, h⟩ <;> omega
    have hkw2 : kw ≤ W + 1 := by rcases hone with ⟨_, h⟩ | ⟨h, _⟩ <;> omega
    have hor : kh = H + 1 ∨ kw = W + 1 := by
      rcases hone with ⟨h, _⟩ | ⟨h, _⟩
      · exact Or.inl h
      · exact Or.inr h
    exact ⟨corr2d_empty_output X K H W kh kw hX hK hH hkh1 hkh2 hkw2 hor,
      pool2d_empty_output X kh kw mode H W hX hH hkh2 hkw2 hor⟩
  · intro hkhH hkwW
    constructor
    · refine ⟨gsum (hadamard (slice2 X 0 kh 0 kw) K), ?_⟩
      rw [corr2d_ok X K H W kh kw hX hK hkh1 (by omega) hkw1 (by omega)]
      rw [hkhH, hkwW, show H - H + 1 = 1 from by omega,
        show W - W + 1 = 1 from by omega]
      simp only [range_one, List.map_cons, List.map_nil]
    · refine ⟨maxCell X kh kw 0 0, ?_⟩
      rw [pool2d_ok_of_cells X kh kw "max" H W hX hH (by omega) (by omega)
        (fun i j => maxCell X kh kw i j) (fun i j hi hj =>
          (poolCell_max_ok X H W kh kw i j hX hkh1 hkw1
            (by omega) (by omega)).1)]
      rw [hkhH, hkwW, show H - H + 1 = 1 from by omega,
        show W - W + 1 = 1 from by omega]
      simp only [range_one, List.map_cons, List.map_nil]

/-- Witness for C5: the one-row-too-tall window `(2,1)` on a `1×1` grid
succeeds with an empty output, and the full-grid window `(1,1)` succeeds
with a `1×1` output. -/
theorem invalid_window_spec_witness :
    ((∃ Y, corr2d [[5]] [[1],[2]] = .ok Y ∧ gflat Y = []) ∧
      (∃ Y, pool2d [[5]] (2, 1) "max" = .ok Y ∧ gflat Y = [])) ∧
    ((∃ v, corr2d [[5]] [[7]] = .ok [[v]]) ∧
      (∃ v, pool2d [[5]] (1, 1) "max" = .ok [[v]])) :=
  ⟨(invalid_window_spec 1 1 2 1 [[5]] [[1],[2]] "max" (by decide) (by decide)
      (by decide) (by decide) (by decide) (by decide)).2.1
      (Or.inl ⟨rfl, by decide⟩),
    (invalid_window_spec 1 1 1 1 [[5]] [[7]] "max" (by decide) (by decide)
      (by decide) (by decide) (by decide) (by decide)).2.2 rfl rfl⟩

/-- C6 counterexample: a zero-sized window need not fail: with `H = 1`,
window `(2, 0)` the output grid is empty, the loop body never runs, and
`pool2d` returns the empty grid instead of raising `EmptyWindowError`. -/
theorem empty_window_cx :
    pool2d [[5]] (2, 0) "max" = .ok [] ∧
    (∀ e : TorchError, pool2d [[5]] (2, 0) "max" ≠ .error e) := by
  have h : pool2d [[5]] (2, 0) "max" = .ok [] := by
    simp [pool2d, nrows, ncols]
    rfl
  refine ⟨h, fun e hc => ?_⟩
  rw [h] at hc
  cases hc

/-- C6 (amended): the MAX reduction over a zero-sized window (`kh*kw = 0`)
fails precisely when some cell is actually computed, i.e. when the output
grid is nonempty (`kh ≤ H`, `kw ≤ W`): then the very first cell reduces an
empty tensor and the call fails with the empty-reduction runtime error
(the code defines no error classes of its own). When the zero-sized window
also makes the output empty, the call returns the empty grid with no
error. -/
theorem empty_window_spec :
    (∀ (H W kh kw : Nat) (X : Grid), WF X H W → 1 ≤ H → 1 ≤ W →
      kh * kw = 0 → kh ≤ H → kw ≤ W →
      pool2d X (kh, kw) "max" = .error .emptyMax) ∧
    (∀ (H W kh kw : Nat) (X : Grid), WF X H W → 1 ≤ H →
      kh * kw = 0 → kh ≤ H + 1 → kw ≤ W + 1 → (kh = H + 1 ∨ kw = W + 1) →
      ∃ Y, pool2d X (kh, kw) "max" = .ok Y ∧ gflat Y = []) := by
  constructor
  · intro H W kh kw X hX hH hW hzero hkh hkw
    have hnX : nrows X = H := hX.1
    have hwX : ncols X = W := hX.ncols_eq hH
    have hcond : ¬((nrows X : Int) - (kh : Int) + 1 < 0 ∨
        (ncols X : Int) - (kw : Int) + 1 < 0) := by
      rw [hnX, hwX]
      push_neg
      omega
    have htoH : ((nrows X : Int) - (kh : Int) + 1).toNat = H - kh + 1 := by
      rw [hnX]
      omega
    have htoW : ((ncols X : Int) - (kw : Int) + 1).toNat = W - kw + 1 := by
      rw [hwX]
      omega
    have hcell : poolCell X kh kw "max" 0 0 = .error .emptyMax := by
      unfold poolCell
      rw [if_pos rfl, gflat_slice_zero_window X 0 kh 0 kw hzero]
      rfl
    simp only [pool2d]
    rw [if_neg hcond, htoH, htoW]
    rw [show List.range (H - kh + 1)
        = 0 :: List.map Nat.succ (List.range (H - kh)) from
      List.range_succ_eq_map _]
    rw [List.mapM_cons]
    rw [show List.range (W - kw + 1)
        = 0 :: List.map Nat.succ (List.range (W - kw)) from
      List.range_succ_eq_map _]
    rw [List.mapM_cons, hcell]
    rfl
  · intro H W kh kw X hX hH hzero hkh hkw hor
    exact pool2d_empty_output X kh kw "max" H W hX hH hkh hkw hor

/-- Witness for C6: window `(0, 1)` on a `1×1` grid fails with the
empty-reduction error; window `(2, 0)` on the same grid yields the empty
grid without error. -/
theorem empty_window_spec_witness :
    pool2d [[5]] (0, 1) "max" = .error .emptyMax ∧
    (∃ Y, pool2d [[5]] (2, 0) "max" = .ok Y ∧ gflat Y = []) :=
  ⟨empty_window_spec.1 1 1 0 1 [[5]] (by decide)
      (by decide) (by decide) (by decide) (by decide) (by decide),
    empty_window_spec.2 1 1 2 0 [[5]] (by decide)
      (by decide) (by decide) (by decide) (by decide) (Or.inl rfl)⟩

/-! ## Grid addition -/

theorem getD_zipWith {α β γ : Type} (f : α → β → γ) (a : List α)
    (b : List β) (d1 : α) (d2 : β) (d3 : γ) (i : Nat)
    (hia : i < a.length) (hib : i < b.length) :
    (List.zipWith f a b).getD i d3 = f (a.getD i d1) (b.getD i d2) := by
  have hlen : i < (List.zipWith f a b).length := by
    rw [List.length_zipWith]
    omega
  rw [List.getD_eq_getElem _ _ hlen, List.getElem_zipWith,
    List.getD_eq_getElem _ _ hia, List.getD_eq_getElem _ _ hib]

theorem WF_addGrid {A B : Grid} {m n : Nat} (hA : WF A m n)
    (hB : WF B m n) : WF (addGrid A B) m n := by
  constructor
  · unfold addGrid
    rw [List.length_zipWith, hA.1, hB.1, Nat.min_self]
  · intro r hr
    unfold addGrid at hr
    rcases List.mem_iff_getElem.mp hr with ⟨i, hi, hir⟩
    rw [List.length_zipWith, hA.1, hB.1, Nat.min_self] at hi
    rw [← hir, List.getElem_zipWith, List.length_zipWith]
    have hiA : i < A.length := by rw [hA.1]; exact hi
    have hiB : i < B.length := by rw [hB.1]; exact hi
    have hrA : A[i].length = n := hA.2 _ (List.getElem_mem hiA)
    have hrB : B[i].length = n := hB.2 _ (List.getElem_mem hiB)
    rw [hrA, hrB, Nat.min_self]

theorem cell_addGrid (A B : Grid) (m n : Nat) (hA : WF A m n)
    (hB : WF B m n) (i j : Nat) (hi : i < m) (hj : j < n) :
    cell (addGrid A B) i j = cell A i j + cell B i j := by
  unfold addGrid cell
  rw [getD_zipWith _ A B [] [] [] i (by rw [hA.1]; exact hi)
    (by rw [hB.1]; exact hi)]
  exact getD_zipWith _ _ _ 0 0 0 j
    (by rw [hA.row_length hi]; exact hj)
    (by rw [hB.row_length hi]; exact hj)

theorem corr2d_multi_in_two (x1 x2 k1 k2 Y1 Y2 : Grid)
    (h1 : corr2d x1 k1 = .ok Y1) (h2 : corr2d x2 k2 = .ok Y2) :
    corr2d_multi_in [x1, x2] [k1, k2] = .ok (addGrid Y1 Y2) := by
  unfold corr2d_multi_in
  rw [show List.zip [x1, x2] [k1, k2] = [(x1, k1), (x2, k2)] from rfl]
  rw [List.mapM_cons, List.mapM_cons, List.mapM_nil]
  show (corr2d x1 k1 >>= fun a =>
    (corr2d x2 k2 >>= fun b => pure [b]) >>= fun l =>
      pure (a :: l)) >>= (fun Ys => pure (sumGrids Ys)) = _
  rw [h1, h2]
  rfl

/-- C7: multi-channel additivity. For every 2-channel grid stack
`[x1, x2]` and weight stack `[k1, k2]` of matching shapes,
`corr2d_multi_in` succeeds and its output is, cell by cell, the sum of the
two single-channel `corr2d` outputs computed over the same windows. -/
theorem corr2d_multi_in_additivity :
    ∀ (H W kh kw : Nat) (x1 x2 k1 k2 : Grid), WF x1 H W → WF x2 H W →
      WF k1 kh kw → WF k2 kh kw → 1 ≤ kh → kh ≤ H → 1 ≤ kw → kw ≤ W →
      ∃ Y1 Y2 Y, corr2d x1 k1 = .ok Y1 ∧ corr2d x2 k2 = .ok Y2 ∧
        corr2d_multi_in [x1, x2] [k1, k2] = .ok Y ∧
        WF Y (H - kh + 1) (W - kw + 1) ∧
        ∀ i j, i < H - kh + 1 → j < W - kw + 1 →
          cell Y i j = cell Y1 i j + cell Y2 i j := by
  intro H W kh kw x1 x2 k1 k2 hx1 hx2 hk1 hk2 hkh1 hkh hkw1 hkw
  have h1 := corr2d_ok x1 k1 H W kh kw hx1 hk1 hkh1 hkh hkw1 hkw
  have h2 := corr2d_ok x2 k2 H W kh kw hx2 hk2 hkh1 hkh hkw1 hkw
  have hw1 : WF ((List.range (H - kh + 1)).map (fun i =>
      (List.range (W - kw + 1)).map (fun j =>
        gsum (hadamard (slice2 x1 i kh j kw) k1))))
      (H - kh + 1) (W - kw + 1) := WF_map_range _ _ _
  have hw2 : WF ((List.range (H - kh + 1)).map (fun i =>
      (List.range (W - kw + 1)).map (fun j =>
        gsum (hadamard (slice2 x2 i kh j kw) k2))))
      (H - kh + 1) (W - kw + 1) := WF_map_range _ _ _
  refine ⟨_, _, _, h1, h2, corr2d_multi_in_two _ _ _ _ _ _ h1 h2,
    WF_addGrid hw1 hw2, ?_⟩
  intro i j hi hj
  exact cell_addGrid _ _ (H - kh + 1) (W - kw + 1) hw1 hw2 i j hi hj

/-- Witness for C7 on a concrete 2-channel stack with `1×1` weights. -/
theorem corr2d_multi_in_additivity_witness :
    ∃ Y1 Y2 Y, corr2d [[1,2],[3,4]] [[1]] = .ok Y1 ∧
      corr2d [[5,6],[7,8]] [[2]] = .ok Y2 ∧
      corr2d_multi_in [[[1,2],[3,4]], [[5,6],[7,8]]] [[[1]], [[2]]]
        = .ok Y ∧
      WF Y (2 - 1 + 1) (2 - 1 + 1) ∧
      ∀ i j, i < 2 - 1 + 1 → j < 2 - 1 + 1 →
        cell Y i j = cell Y1 i j + cell Y2 i j :=
  corr2d_multi_in_additivity 2 2 1 1 [[1,2],[3,4]] [[5,6],[7,8]] [[1]] [[2]]
    (by decide) (by decide) (by decide) (by decide)
    (by decide) (by decide) (by decide) (by decide)

/-! ## Grid extensionality and flatten indexing -/

theorem grid_ext {A B : Grid} (hlen : A.length = B.length)
    (hrow : ∀ p, p < A.length → (A.getD p []).length = (B.getD p []).length)
    (hcell : ∀ p q, p < A.length → q < (A.getD p []).length →
      cell A p q = cell B p q) : A = B := by
  apply List.ext_getElem hlen
  intro p hpA hpB
  have hrl : A[p].length = B[p].length := by
    have := hrow p hpA
    rwa [List.getD_eq_getElem _ _ hpA, List.getD_eq_getElem _ _ hpB] at this
  apply List.ext_getElem hrl
  intro q hqA hqB
  have := hcell p q hpA (by rw [List.getD_eq_getElem _ _ hpA]; exact hqA)
  unfold cell at this
  rw [List.getD_eq_getElem _ _ hpA, List.getD_eq_getElem _ _ hpB,
    List.getD_eq_getElem _ _ hqA, List.getD_eq_getElem _ _ hqB] at this
  exact this

theorem gflat_length (x : Grid) (h w : Nat) (hx : WF x h w) :
    (gflat x).length = h * w := by
  have hmap : x.map List.length = List.replicate h w := by
    refine List.eq_replicate_iff.mpr ⟨?_, ?_⟩
    · rw [List.length_map, hx.1]
    · intro b hb
      rcases List.mem_map.mp hb with ⟨r, hr, hrb⟩
      rw [← hrb]
      exact hx.2 r hr
  unfold gflat
  rw [List.length_flatten, hmap, List.sum_replicate, smul_eq_mul]

theorem gflat_getD : ∀ (x : Grid) (h w r j : Nat), WF x h w → r < h →
    j < w → (gflat x).getD (r * w + j) 0 = cell x r j
  | [], h, w, r, j, hx, hr, hj => by
      rw [← hx.1] at hr
      simp at hr
  | row :: rest, h, w, r, j, hx, hr, hj => by
      have hrow : row.length = w := hx.2 row (List.mem_cons_self _ _)
      have hrest : WF rest (h - 1) w := by
        constructor
        · have hl := hx.1
          rw [List.length_cons] at hl
          omega
        · exact fun t ht => hx.2 t (List.mem_cons_of_mem _ ht)
      unfold gflat
      rw [List.flatten_cons]
      cases r with
      | zero =>
          rw [Nat.zero_mul, Nat.zero_add,
            List.getD_append _ _ _ _ (by rw [hrow]; exact hj)]
          rfl
      | succ r2 =>
          have h1 : 1 ≤ h := by omega
          have hidx : (r2 + 1) * w + j = row.length + (r2 * w + j) := by
            rw [hrow]
            ring
          have hval := gflat_getD rest (h - 1) w r2 j hrest (by omega) hj
          unfold gflat at hval
          rw [hidx, List.getD_append_right _ _ _ _ (by omega),
            show row.length + (r2 * w + j) - row.length = r2 * w + j from
              by omega, hval]
          rfl

theorem drop_take_map_range {α : Type} (f : Nat → α) (m a b : Nat)
    (hab : a + b ≤ m) :
    (((List.range m).map f).drop a).take b
      = (List.range b).map (fun j => f (a + j)) := by
  apply List.ext_getElem
  · simp only [List.length_take, List.length_drop, List.length_map,
      List.length_range]
    omega
  · intro i h1 h2
    rw [List.getElem_take, List.getElem_drop, List.getElem_map,
      List.getElem_map, List.getElem_range, List.getElem_range]

/-! ## Summing a list of grids -/

theorem sumGrids_cons_spec (h w : Nat) :
    ∀ (Ys : List Grid) (Y : Grid), WF Y h w → (∀ Z ∈ Ys, WF Z h w) →
      WF (Ys.foldl addGrid Y) h w ∧
      ∀ i j, i < h → j < w →
        cell (Ys.foldl addGrid Y) i j
          = cell Y i j + (Ys.map (fun Z => cell Z i j)).sum
  | [], Y, hY, _ => ⟨hY, fun i j _ _ => by simp⟩
  | Z :: Ys, Y, hY, hZs => by
      have hZ : WF Z h w := hZs Z (List.mem_cons_self _ _)
      have hrest : ∀ T ∈ Ys, WF T h w :=
        fun T hT => hZs T (List.mem_cons_of_mem _ hT)
      have ih := sumGrids_cons_spec h w Ys (addGrid Y Z)
        (WF_addGrid hY hZ) hrest
      refine ⟨ih.1, fun i j hi hj => ?_⟩
      rw [List.foldl_cons, ih.2 i j hi hj,
        cell_addGrid Y Z h w hY hZ i j hi hj, List.map_cons, List.sum_cons]
      ring

/-! ## The 1×1 kernel case -/

theorem corr2d_1x1_ok (x c : Grid) (h w : Nat) (hx : WF x h w)
    (hc : WF c 1 1) (hh : 1 ≤ h) (hw : 1 ≤ w) :
    corr2d x c = .ok ((List.range h).map (fun i =>
      (List.range w).map (fun j => cell x i j * cell c 0 0))) := by
  rw [corr2d_ok x c h w 1 1 hx hc le_rfl hh le_rfl hw]
  congr 1
  rw [show h - 1 + 1 = h from by omega, show w - 1 + 1 = w from by omega]
  apply List.map_congr_left
  intro i hi
  apply List.map_congr_left
  intro j hj
  rw [gsum_hadamard_slice x c h w 1 1 i j hx hc
    (by have := List.mem_range.mp hi; omega)
    (by have := List.mem_range.mp hj; omega)]
  simp [Finset.sum_range_one]

theorem sumGrids_spec (h w : Nat) (L : List Grid) (hne : L ≠ [])
    (hL : ∀ Z ∈ L, WF Z h w) :
    WF (sumGrids L) h w ∧ ∀ i j, i < h → j < w →
      cell (sumGrids L) i j = (L.map (fun Z => cell Z i j)).sum := by
  cases L with
  | nil => exact absurd rfl hne
  | cons Z Zs =>
      have hspec := sumGrids_cons_spec h w Zs Z
        (hL Z (List.mem_cons_self _ _))
        (fun T hT => hL T (List.mem_cons_of_mem _ hT))
      refine ⟨hspec.1, fun i j hi hj => ?_⟩
      rw [show sumGrids (Z :: Zs) = Zs.foldl addGrid Z from rfl,
        hspec.2 i j hi hj, List.map_cons, List.sum_cons]

theorem getD_map_cell {α β : Type} [Inhabited α] (g : α → β) (dflt : β)
    (da : α) (l : List α) (c : Nat) (hc : c < l.length) :
    (l.map g).getD c dflt = g (l.getD c da) := by
  rw [List.getD_eq_getElem _ _ (by simpa using hc), List.getElem_map,
    List.getD_eq_getElem _ _ hc]

theorem corr2d_multi_in_1x1_ok (h w : Nat) (X k : List Grid)
    (hh : 1 ≤ h) (hw : 1 ≤ w) (hne : X ≠ [])
    (hX : ∀ x ∈ X, WF x h w) (hlen : k.length = X.length)
    (hk : ∀ c ∈ k, WF c 1 1) :
    corr2d_multi_in X k = .ok (sumGrids ((List.zip X k).map (fun xk =>
      (List.range h).map (fun i => (List.range w).map (fun j =>
        cell xk.1 i j * cell xk.2 0 0))))) ∧
    WF (sumGrids ((List.zip X k).map (fun xk =>
      (List.range h).map (fun i => (List.range w).map (fun j =>
        cell xk.1 i j * cell xk.2 0 0))))) h w ∧
    ∀ i j, i < h → j < w →
      cell (sumGrids ((List.zip X k).map (fun xk =>
        (List.range h).map (fun i => (List.range w).map (fun j =>
          cell xk.1 i j * cell xk.2 0 0))))) i j
        = ∑ c ∈ Finset.range X.length,
            cell (X.getD c []) i j * cell (k.getD c []) 0 0 := by
  have hzlen : (List.zip X k).length = X.length := by
    rw [List.length_zip, hlen, Nat.min_self]
  have hLne : (List.zip X k).map (fun xk =>
      (List.range h).map (fun i => (List.range w).map (fun j =>
        cell xk.1 i j * cell xk.2 0 0))) ≠ [] := by
    intro hcon
    have : X.length = 0 := by
      rw [← hzlen, ← List.length_map (List.zip X k)
        (fun xk => (List.range h).map (fun i =>
          (List.range w).map (fun j => cell xk.1 i j * cell xk.2 0 0))),
        hcon]
      rfl
    exact hne (List.length_eq_zero.mp this)
  have hLwf : ∀ Z ∈ (List.zip X k).map (fun xk =>
      (List.range h).map (fun i => (List.range w).map (fun j =>
        cell xk.1 i j * cell xk.2 0 0))), WF Z h w := by
    intro Z hZ
    rcases List.mem_map.mp hZ with ⟨p, _, hpZ⟩
    rw [← hpZ]
    exact WF_map_range _ _ _
  have hsum := sumGrids_spec h w _ hLne hLwf
  refine ⟨?_, hsum.1, ?_⟩
  · unfold corr2d_multi_in
    rw [mapM_ok _ (fun xk => (List.range h).map (fun i =>
        (List.range w).map (fun j => cell xk.1 i j * cell xk.2 0 0)))
      (List.zip X k) (fun p hp =>
        corr2d_1x1_ok p.1 p.2 h w (hX p.1 (List.of_mem_zip hp).1)
          (hk p.2 (List.of_mem_zip hp).2) hh hw)]
    rfl
  · intro i j hi hj
    rw [hsum.2 i j hi hj, List.map_map]
    have hstep : ((List.zip X k).map
        ((fun Z => cell Z i j) ∘ (fun xk =>
          (List.range h).map (fun i => (List.range w).map (fun j =>
            cell xk.1 i j * cell xk.2 0 0)))))
        = (List.zip X k).map (fun xk => cell xk.1 i j * cell xk.2 0 0) := by
      apply List.map_congr_left
      intro p _
      exact cell_map_range h w _ i j hi hj
    rw [hstep, List.zip_eq_zipWith, List.map_zipWith,
      zipWith_sum_getD _ ([] : List (List ℚ)) ([] : List (List ℚ)) X k
        hlen.symm]

/-- C8: 1×1 equivalence. For every nonempty `C`-channel grid stack and
every weight stack of `O` output channels of `C` kernels of shape `1×1`,
the per-pixel matrix-multiplication formulation
(`corr2d_multi_in_out_1x1`: flatten to `(C, H·W)`, multiply by the `(O,C)`
matrix, reshape) yields exactly the direct sliding-window computation
(`corr2d_multi_in_out`); in the exact rational model the results are
equal, so they agree up to floating-point summation order. -/
theorem corr2d_1x1_equivalence :
    ∀ (h w : Nat) (X : List Grid) (K : List (List Grid)),
      1 ≤ h → 1 ≤ w → X ≠ [] → (∀ x ∈ X, WF x h w) →
      (∀ k ∈ K, k.length = X.length ∧ ∀ c ∈ k, WF c 1 1) →
      corr2d_multi_in_out X K = .ok (corr2d_multi_in_out_1x1 X K) := by
  intro h w X K hh hw hne hX hK
  obtain ⟨x0, Xs, hX0⟩ : ∃ x0 Xs, X = x0 :: Xs := by
    cases X with
    | nil => exact absurd rfl hne
    | cons a l => exact ⟨a, l, rfl⟩
  have hx0 : WF x0 h w := hX x0 (by rw [hX0]; exact List.mem_cons_self _ _)
  have hmapM : corr2d_multi_in_out X K = .ok (K.map (fun k =>
      sumGrids ((List.zip X k).map (fun xk =>
        (List.range h).map (fun i => (List.range w).map (fun j =>
          cell xk.1 i j * cell xk.2 0 0)))))) := by
    unfold corr2d_multi_in_out
    exact mapM_ok _ _ K (fun k hk =>
      (corr2d_multi_in_1x1_ok h w X k hh hw hne hX (hK k hk).1
        (hK k hk).2).1)
  rw [hmapM]
  congr 1
  have hnr : nrows (X.headD []) = h := by
    rw [hX0]
    exact hx0.1
  have hnc : ncols (X.headD []) = w := by
    rw [hX0]
    exact hx0.ncols_eq hh
  have hBhead : ((X.map gflat).headD []).length = h * w := by
    rw [hX0]
    exact gflat_length x0 h w hx0
  simp only [corr2d_multi_in_out_1x1, matmul]
  rw [hnr, hnc, hBhead, List.map_map, List.map_map]
  apply List.map_congr_left
  intro k hk
  obtain ⟨hklen, hkwf⟩ := hK k hk
  simp only [Function.comp]
  have hreshape : ∀ r ∈ List.range h,
      ((((List.range (h * w)).map (fun t =>
        dot (k.map (fun kc => cell kc 0 0))
          ((X.map gflat).map (fun brow => brow.getD t 0)))).drop
            (r * w)).take w)
      = (List.range w).map (fun j =>
          dot (k.map (fun kc => cell kc 0 0))
            ((X.map gflat).map (fun brow => brow.getD (r * w + j) 0))) := by
    intro r hr
    have hrh : r < h := List.mem_range.mp hr
    have hle : r * w + w ≤ h * w := by
      rw [show r * w + w = (r + 1) * w from by ring]
      exact Nat.mul_le_mul_right w (by omega)
    exact drop_take_map_range _ (h * w) (r * w) w hle
  rw [List.map_congr_left hreshape]
  have hdir := corr2d_multi_in_1x1_ok h w X k hh hw hne hX hklen hkwf
  have hwfR : WF ((List.range h).map (fun r => (List.range w).map (fun j =>
      dot (k.map (fun kc => cell kc 0 0))
        ((X.map gflat).map (fun brow => brow.getD (r * w + j) 0)))))
      h w := WF_map_range _ _ _
  apply grid_ext
  · rw [hdir.2.1.1, hwfR.1]
  · intro p hp
    have hph : p < h := by rwa [hdir.2.1.1] at hp
    rw [hdir.2.1.row_length hph, hwfR.row_length hph]
  · intro p q hp hq
    have hph : p < h := by rwa [hdir.2.1.1] at hp
    have hqw : q < w := by rwa [hdir.2.1.row_length hph] at hq
    rw [hdir.2.2 p q hph hqw, cell_map_range h w _ p q hph hqw]
    unfold dot
    rw [zipWith_sum_getD _ (0 : ℚ) (0 : ℚ) _ _
      (by rw [List.length_map, List.length_map, List.length_map, hklen])]
    rw [List.length_map, hklen]
    refine Finset.sum_congr rfl (fun c hc => ?_)
    have hcX : c < X.length := Finset.mem_range.mp hc
    have hck : c < k.length := by omega
    rw [getD_map_cell _ (0 : ℚ) ([] : Grid) k c hck,
      getD_map_cell _ (0 : ℚ) ([] : List ℚ) (X.map gflat) c
        (by rw [List.length_map]; exact hcX),
      getD_map_cell _ ([] : List ℚ) ([] : Grid) X c hcX,
      gflat_getD (X.getD c []) h w p q
        (by
          have : X.getD c [] ∈ X := by
            rw [List.getD_eq_getElem _ _ hcX]
            exact List.getElem_mem hcX
          exact hX _ this)
        hph hqw]
    ring

/-- Witness for C8 on a concrete 2-channel stack, two output channels,
`1×1` kernels. -/
theorem corr2d_1x1_equivalence_witness :
    corr2d_multi_in_out [[[1,2],[3,4]], [[5,6],[7,8]]]
        [[[[1]], [[2]]], [[[3]], [[4]]]]
      = .ok (corr2d_multi_in_out_1x1 [[[1,2],[3,4]], [[5,6],[7,8]]]
        [[[[1]], [[2]]], [[[3]], [[4]]]]) :=
  corr2d_1x1_equivalence 2 2 [[[1,2],[3,4]], [[5,6],[7,8]]]
    [[[[1]], [[2]]], [[[3]], [[4]]]]
    (by decide) (by decide) (by decide)
    (by decide)
    (by decide)

/-! ## One-cell writes and the loop-fill characterisation -/

theorem getD_set {α : Type} (l : List α) (j : Nat) (v : α) (d : α)
    (hj : j < l.length) (q : Nat) :
    (l.set j v).getD q d = if q = j then v else l.getD q d := by
  by_cases hq : q = j
  · subst hq
    rw [if_pos rfl,
      List.getD_eq_getElem _ _ (by rw [List.length_set]; exact hj)]
    exact List.getElem_set_self _
  · rw [if_neg hq]
    by_cases hql : q < l.length
    · rw [List.getD_eq_getElem _ _ (by rw [List.length_set]; exact hql),
        List.getD_eq_getElem _ _ hql]
      exact List.getElem_set_ne (fun hc => hq hc.symm) _
    · rw [List.getD_eq_default _ _ (by rw [List.length_set]; omega),
        List.getD_eq_default _ _ (by omega)]

theorem setCell_length (Y : Grid) (i j : Nat) (v : ℚ) :
    (setCell Y i j v).length = Y.length := by
  unfold setCell
  exact List.length_set Y i _

theorem setCell_row_length (Y : Grid) (i j : Nat) (v : ℚ)
    (hi : i < Y.length) (p : Nat) :
    ((setCell Y i j v).getD p []).length = (Y.getD p []).length := by
  unfold setCell
  rw [getD_set Y i _ [] hi p]
  by_cases hpi : p = i
  · subst hpi
    rw [if_pos rfl, List.length_set]
  · rw [if_neg hpi]

theorem cell_setCell (Y : Grid) (i j : Nat) (v : ℚ) (hi : i < Y.length)
    (hj : j < (Y.getD i []).length) (p q : Nat) :
    cell (setCell Y i j v) p q = if p = i ∧ q = j then v else cell Y p q := by
  unfold setCell cell
  rw [getD_set Y i _ [] hi p]
  by_cases hpi : p = i
  · subst hpi
    rw [if_pos rfl, getD_set _ j v 0 hj q]
    by_cases hqj : q = j
    · subst hqj
      rw [if_pos rfl, if_pos ⟨rfl, rfl⟩]
    · rw [if_neg hqj, if_neg (fun hc => hqj hc.2)]
  · rw [if_neg hpi, if_neg (fun hc => hpi hc.1)]

theorem rowFill_spec (g2 : Nat → ℚ) (i : Nat) (Y : Grid)
    (hi : i < Y.length) :
    ∀ n, n ≤ (Y.getD i []).length →
      (((List.range n).foldl (fun Y2 j => setCell Y2 i j (g2 j)) Y).length
          = Y.length) ∧
      (∀ p, (List.getD ((List.range n).foldl
          (fun Y2 j => setCell Y2 i j (g2 j)) Y) p []).length
        = (Y.getD p []).length) ∧
      (∀ p q, cell ((List.range n).foldl
          (fun Y2 j => setCell Y2 i j (g2 j)) Y) p q
        = if p = i ∧ q < n then g2 q else cell Y p q)
  | 0, _ => by
      refine ⟨rfl, fun p => rfl, fun p q => ?_⟩
      rw [if_neg (fun hc => Nat.not_lt_zero q hc.2)]
      rfl
  | n + 1, hn => by
      have ih := rowFill_spec g2 i Y hi n (by omega)
      rw [List.range_succ, List.foldl_append, List.foldl_cons,
        List.foldl_nil]
      have hiF : i < ((List.range n).foldl
          (fun Y2 j => setCell Y2 i j (g2 j)) Y).length := by
        rw [ih.1]
        exact hi
      have hjF : n < (((List.range n).foldl
          (fun Y2 j => setCell Y2 i j (g2 j)) Y).getD i []).length := by
        rw [ih.2.1 i]
        omega
      refine ⟨?_, ?_, ?_⟩
      · rw [setCell_length, ih.1]
      · intro p
        rw [setCell_row_length _ _ _ _ hiF p, ih.2.1 p]
      · intro p q
        rw [cell_setCell _ i n (g2 n) hiF hjF p q]
        by_cases hpq : p = i ∧ q = n
        · obtain ⟨hp1, hq1⟩ := hpq
          subst hq1
          rw [if_pos ⟨hp1, rfl⟩, if_pos ⟨hp1, by omega⟩]
        · rw [if_neg hpq, ih.2.2 p q]
          by_cases hpi : p = i
          · subst hpi
            by_cases hqn : q < n
            · rw [if_pos ⟨rfl, hqn⟩, if_pos ⟨rfl, by omega⟩]
            · rw [if_neg (fun hc => hqn hc.2),
                if_neg (fun hc => hpq ⟨rfl, by omega⟩)]
          · rw [if_neg (fun hc => hpi hc.1), if_neg (fun hc => hpi hc.1)]

theorem gridFill_spec (g : Nat → Nat → ℚ) (n : Nat) (Y : Grid)
    (hrow : ∀ p, p < Y.length → (Y.getD p []).length = n) :
    ∀ m, m ≤ Y.length →
      (((List.range m).foldl (fun Y1 i =>
          (List.range n).foldl (fun Y2 j => setCell Y2 i j (g i j)) Y1)
          Y).length = Y.length) ∧
      (∀ p, (((List.range m).foldl (fun Y1 i =>
          (List.range n).foldl (fun Y2 j => setCell Y2 i j (g i j)) Y1)
          Y).getD p []).length = (Y.getD p []).length) ∧
      (∀ p q, cell ((List.range m).foldl (fun Y1 i =>
          (List.range n).foldl (fun Y2 j => setCell Y2 i j (g i j)) Y1)
          Y) p q
        = if p < m ∧ q < n then g p q else cell Y p q)
  | 0, _ => by
      refine ⟨rfl, fun p => rfl, fun p q => ?_⟩
      rw [if_neg (fun hc => Nat.not_lt_zero p hc.1)]
      rfl
  | m + 1, hm => by
      have ih := gridFill_spec g n Y hrow m (by omega)
      rw [List.range_succ, List.foldl_append, List.foldl_cons,
        List.foldl_nil]
      have hmF : m < ((List.range m).foldl (fun Y1 i =>
          (List.range n).foldl (fun Y2 j => setCell Y2 i j (g i j)) Y1)
          Y).length := by
        rw [ih.1]
        omega
      have hrowF : n ≤ (((List.range m).foldl (fun Y1 i =>
          (List.range n).foldl (fun Y2 j => setCell Y2 i j (g i j)) Y1)
          Y).getD m []).length := by
        rw [ih.2.1 m, hrow m (by omega)]
      have hrf := rowFill_spec (fun j => g m j) m _ hmF n hrowF
      refine ⟨?_, ?_, ?_⟩
      · rw [hrf.1, ih.1]
      · intro p
        rw [hrf.2.1 p, ih.2.1 p]
      · intro p q
        rw [hrf.2.2 p q]
        by_cases hpm : p = m
        · subst hpm
          by_cases hqn : q < n
          · rw [if_pos ⟨rfl, hqn⟩, if_pos ⟨by omega, hqn⟩]
          · rw [if_neg (fun hc => hqn hc.2), ih.2.2 p q,
              if_neg (fun hc => hqn hc.2),
              if_neg (fun hc => hqn hc.2)]
        · rw [if_neg (fun hc => hpm hc.1), ih.2.2 p q]
          by_cases hpq : p < m ∧ q < n
          · rw [if_pos hpq, if_pos ⟨by omega, hpq.2⟩]
          · rw [if_neg hpq, if_neg (fun hc =>
              hpq ⟨by omega, hc.2⟩)]

theorem loopFill_eq (m n : Nat) (g : Nat → Nat → ℚ) :
    (List.range m).foldl (fun Y1 i =>
      (List.range n).foldl (fun Y2 j => setCell Y2 i j (g i j)) Y1)
      (zeros m n)
    = (List.range m).map (fun i => (List.range n).map (fun j => g i j)) := by
  have hz : WF (zeros m n) m n := WF_map_range m n (fun _ _ => 0)
  have hrow : ∀ p, p < (zeros m n).length → ((zeros m n).getD p []).length
      = n := by
    intro p hp
    exact hz.row_length (by rw [← hz.1]; exact hp)
  have hfill := gridFill_spec g n (zeros m n) hrow m (by rw [hz.1])
  have hwfR : WF ((List.range m).map (fun i =>
      (List.range n).map (fun j => g i j))) m n := WF_map_range m n g
  apply grid_ext
  · rw [hfill.1, hz.1, hwfR.1]
  · intro p hp
    have hpm : p < m := by rw [hfill.1, hz.1] at hp; exact hp
    rw [hfill.2.1 p, hz.row_length hpm, hwfR.row_length hpm]
  · intro p q hp hq
    have hpm : p < m := by rw [hfill.1, hz.1] at hp; exact hp
    have hqn : q < n := by
      rw [hfill.2.1 p, hz.row_length hpm] at hq
      exact hq
    rw [hfill.2.2 p q, if_pos ⟨hpm, hqn⟩,
      cell_map_range m n g p q hpm hqn]

/-! ## The loop-state models compute the functional results and leave the
input buffers untouched -/

theorem foldl_keep12 {α β : Type} (l : List Nat)
    (u : α → β → Grid → Nat → Grid) :
    ∀ (A : α) (B : β) (Y : Grid),
      l.foldl (fun st i => (st.1, st.2.1, u st.1 st.2.1 st.2.2 i)) (A, B, Y)
        = (A, B, l.foldl (fun Y2 i => u A B Y2 i) Y) := by
  induction l with
  | nil => intro A B Y; rfl
  | cons x xs ih =>
      intro A B Y
      rw [List.foldl_cons, List.foldl_cons]
      exact ih A B _

theorem corr2dLoop_pure (X K : Grid) :
    corr2dLoop X K = (corr2d X K).map (fun Y => (X, K, Y)) := by
  unfold corr2dLoop corr2d
  by_cases hcond : ((nrows X : Int) - (nrows K : Int) + 1 < 0 ∨
      (ncols X : Int) - (ncols K : Int) + 1 < 0)
  · rw [if_pos hcond, if_pos hcond]
    rfl
  · rw [if_neg hcond, if_neg hcond]
    show Except.ok _ = Except.ok _
    congr 1
    have hbody : (fun (st : Grid × Grid × Grid) (i : Nat) =>
        (List.range ((ncols X : Int) - (ncols K : Int) + 1).toNat).foldl
          (fun st2 j => (st2.1, st2.2.1, setCell st2.2.2 i j
            (gsum (hadamard (slice2 st2.1 i (nrows K) j (ncols K))
              st2.2.1)))) st)
        = (fun st i => (st.1, st.2.1,
            (List.range ((ncols X : Int) - (ncols K : Int) + 1).toNat).foldl
              (fun Y2 j => setCell Y2 i j
                (gsum (hadamard (slice2 st.1 i (nrows K) j (ncols K))
                  st.2.1))) st.2.2)) := by
      funext st i
      exact foldl_keep12 _
        (fun A B Y2 j => setCell Y2 i j
          (gsum (hadamard (slice2 A i (nrows K) j (ncols K)) B)))
        st.1 st.2.1 st.2.2
    rw [hbody,
      foldl_keep12 _ (fun A B Y1 i =>
        (List.range ((ncols X : Int) - (ncols K : Int) + 1).toNat).foldl
          (fun Y2 j => setCell Y2 i j
            (gsum (hadamard (slice2 A i (nrows K) j (ncols K)) B))) Y1)
        X K (zeros ((nrows X : Int) - (nrows K : Int) + 1).toNat
          ((ncols X : Int) - (ncols K : Int) + 1).toNat),
      loopFill_eq ((nrows X : Int) - (nrows K : Int) + 1).toNat
        ((ncols X : Int) - (ncols K : Int) + 1).toNat
        (fun i j => gsum (hadamard (slice2 X i (nrows K) j (ncols K)) K))]

theorem foldlM_state_ok (A : Grid)
    (body : Grid × Grid → Nat → Except TorchError (Grid × Grid))
    (step : Grid → Nat → Grid) :
    ∀ (l : List Nat), (∀ Y i, i ∈ l → body (A, Y) i = .ok (A, step Y i)) →
      ∀ Y0, l.foldlM body (A, Y0) = .ok (A, l.foldl step Y0)
  | [], _, Y0 => rfl
  | x :: xs, hbody, Y0 => by
      rw [List.foldlM_cons, hbody Y0 x (List.mem_cons_self _ _)]
      show xs.foldlM body (A, step Y0 x) = _
      rw [foldlM_state_ok A body step xs
        (fun Y i hi => hbody Y i (List.mem_cons_of_mem _ hi)) (step Y0 x)]
      rfl

theorem pool2dLoop_pure (X : Grid) (ph pw : Nat) (mode : String)
    (H W : Nat) (hX : WF X H W) (hH : 1 ≤ H) (hph : ph ≤ H) (hpw : pw ≤ W)
    (g : Nat → Nat → ℚ)
    (hcell : ∀ i j, i < H - ph + 1 → j < W - pw + 1 →
      poolCell X ph pw mode i j = .ok (g i j))
    (hmode : mode = "max" ∨ mode = "avg") :
    pool2dLoop X (ph, pw) mode
      = (pool2d X (ph, pw) mode).map (fun Y => (X, Y)) := by
  have hok := pool2d_ok_of_cells X ph pw mode H W hX hH hph hpw g hcell
  rw [hok]
  have hnX : nrows X = H := hX.1
  have hwX : ncols X = W := hX.ncols_eq hH
  have hcond : ¬((nrows X : Int) - (ph : Int) + 1 < 0 ∨
      (ncols X : Int) - (pw : Int) + 1 < 0) := by
    rw [hnX, hwX]
    push_neg
    omega
  have htoH : ((nrows X : Int) - (ph : Int) + 1).toNat = H - ph + 1 := by
    rw [hnX]
    omega
  have htoW : ((ncols X : Int) - (pw : Int) + 1).toNat = W - pw + 1 := by
    rw [hwX]
    omega
  simp only [pool2dLoop]
  rw [if_neg hcond, htoH, htoW]
  rw [foldlM_state_ok X _ (fun Y1 i => (List.range (W - pw + 1)).foldl
      (fun Y2 j => setCell Y2 i j (g i j)) Y1) (List.range (H - ph + 1))
    (fun Y i hi => ?_) (zeros (H - ph + 1) (W - pw + 1))]
  · rw [loopFill_eq (H - ph + 1) (W - pw + 1) g]
    rfl
  · have hiH : i < H - ph + 1 := List.mem_range.mp hi
    rw [foldlM_state_ok X _ (fun Y2 j => setCell Y2 i j (g i j))
      (List.range (W - pw + 1)) (fun Y2 j hj => ?_) Y]
    have hjW : j < W - pw + 1 := List.mem_range.mp hj
    rw [if_pos hmode, hcell i j hiH hjW]
    rfl

/-- C9: purity and determinism. In the state-passing (imperative) reading
of the loops, `corr2dLoop` returns the final state `(X, K, Y)`: the two
input buffers are exactly the ones passed in (never mutated), and the
output buffer `Y` is exactly the functional `corr2d X K` — a function of
the inputs alone, so two calls with identical inputs yield identical
outputs. Likewise `pool2dLoop` returns `(X, Y)` with `Y = pool2d X p mode`
whenever the cells compute (mode `max`/`avg`). -/
theorem reduce_purity :
    (∀ X K : Grid, corr2dLoop X K = (corr2d X K).map (fun Y => (X, K, Y))) ∧
    (∀ (X : Grid) (ph pw : Nat) (mode : String) (H W : Nat)
        (g : Nat → Nat → ℚ), WF X H W → 1 ≤ H → ph ≤ H → pw ≤ W →
      (∀ i j, i < H - ph + 1 → j < W - pw + 1 →
        poolCell X ph pw mode i j = .ok (g i j)) →
      mode = "max" ∨ mode = "avg" →
      pool2dLoop X (ph, pw) mode
        = (pool2d X (ph, pw) mode).map (fun Y => (X, Y))) :=
  ⟨corr2dLoop_pure,
   fun X ph pw mode H W g hX hH hph hpw hcell hmode =>
     pool2dLoop_pure X ph pw mode H W hX hH hph hpw g hcell hmode⟩

/-- Witness for C9: on a concrete grid the `max`-pooling loop state model
returns the unchanged input together with `pool2d`'s output. -/
theorem reduce_purity_witness :
    pool2dLoop [[0,1],[2,3]] (1, 1) "max"
      = (pool2d [[0,1],[2,3]] (1, 1) "max").map
          (fun Y => ([[0,1],[2,3]], Y)) :=
  reduce_purity.2 [[0,1],[2,3]] 1 1 "max" 2 2
    (fun i j => maxCell [[0,1],[2,3]] 1 1 i j)
    (by decide) (by decide) (by decide) (by decide)
    (by intro i j hi hj
        interval_cases i <;> interval_cases j <;> rfl)
    (Or.inl rfl)
